import Mathlib

/-!
A shallow embedding of the frontend type checker of the p4-to-gcl
repository (`src/type_checker.rs`), together with proofs of the
specification claims about it.

The AST (`ast.rs`) and IR (`ir.rs`) node types are reconstructed from
their use sites in `src/type_checker.rs`; every field and constructor
that the type checker touches is modelled.  Rust `HashMap`s are
modelled as association lists whose `lookup`/`insert` semantics agree
with `HashMap` (unique keys; `insert` overwrites an existing key).
`VariableId` is modelled as `Nat`.
-/

/-- Parameter direction tag (`ast.rs`); carried through unchanged by the
type checker.  Modelled from the spec: parameters may be `in` (§8 S3);
the other P4 directions are included for completeness. -/
inductive Direction where
  | din
  | dout
  | dinout
  | dnone
deriving DecidableEq

/-- From `ir.rs` `IrBaseType` as used by the type checker: `Bool`, `Void`,
`Table`. -/
inductive IrBaseType where
  | bool
  | void
  | table
deriving DecidableEq

/-- From `ir.rs` `IrStructType { name }`. -/
structure IrStructType where
  name : String
deriving DecidableEq

mutual
/-- From `ir.rs` `IrType`: base type, struct type, or function type. -/
inductive IrType where
  | base (b : IrBaseType)
  | struct (s : IrStructType)
  | function (f : IrFunctionType)

/-- From `ir.rs` `IrFunctionType { result, inputs }`. -/
inductive IrFunctionType where
  | mk (result : IrType) (inputs : List (IrType × Direction))
end

/-- Result type of a function type. -/
def IrFunctionType.result : IrFunctionType → IrType
  | .mk r _ => r

/-- Input types (with directions) of a function type. -/
def IrFunctionType.inputs : IrFunctionType → List (IrType × Direction)
  | .mk _ i => i

/-- Mirrors `IrType::bool()` from `ir.rs`. -/
def IrType.bool : IrType := IrType.base IrBaseType.bool

mutual
/-- Structural boolean equality on `IrType`, mirroring the derived
`PartialEq` used by `assert_ty`'s `==`. -/
def IrType.beq : IrType → IrType → Bool
  | .base a, .base b => a = b
  | .struct a, .struct b => a = b
  | .function a, .function b => IrFunctionType.beq a b
  | _, _ => false

def IrFunctionType.beq : IrFunctionType → IrFunctionType → Bool
  | .mk r₁ i₁, .mk r₂ i₂ => IrType.beq r₁ r₂ && IrType.beqInputs i₁ i₂

def IrType.beqInputs : List (IrType × Direction) → List (IrType × Direction) → Bool
  | [], [] => true
  | (t₁, d₁) :: r₁, (t₂, d₂) :: r₂ => IrType.beq t₁ t₂ && d₁ = d₂ && IrType.beqInputs r₁ r₂
  | _, _ => false
end

mutual
theorem irTypeBeq_iff : ∀ a b : IrType, IrType.beq a b = true ↔ a = b
  | .base a, .base b => by simp [IrType.beq]
  | .base _, .struct _ => by simp [IrType.beq]
  | .base _, .function _ => by simp [IrType.beq]
  | .struct _, .base _ => by simp [IrType.beq]
  | .struct a, .struct b => by simp [IrType.beq]
  | .struct _, .function _ => by simp [IrType.beq]
  | .function _, .base _ => by simp [IrType.beq]
  | .function _, .struct _ => by simp [IrType.beq]
  | .function a, .function b => by
      simp only [IrType.beq, irFunctionTypeBeq_iff a b, IrType.function.injEq]

theorem irFunctionTypeBeq_iff : ∀ a b : IrFunctionType, IrFunctionType.beq a b = true ↔ a = b
  | .mk r₁ i₁, .mk r₂ i₂ => by
      simp only [IrFunctionType.beq, Bool.and_eq_true, irTypeBeq_iff r₁ r₂,
        IrType.beqInputs_iff i₁ i₂, IrFunctionType.mk.injEq]

theorem IrType.beqInputs_iff :
    ∀ a b : List (IrType × Direction), IrType.beqInputs a b = true ↔ a = b
  | [], [] => by simp [IrType.beqInputs]
  | [], _ :: _ => by simp [IrType.beqInputs]
  | _ :: _, [] => by simp [IrType.beqInputs]
  | (t₁, d₁) :: r₁, (t₂, d₂) :: r₂ => by
      simp only [IrType.beqInputs, Bool.and_eq_true, irTypeBeq_iff t₁ t₂,
        IrType.beqInputs_iff r₁ r₂, List.cons.injEq, Prod.mk.injEq, decide_eq_true_eq]
end

instance : DecidableEq IrType := fun a b =>
  decidable_of_iff (IrType.beq a b = true) (irTypeBeq_iff a b)

instance : DecidableEq IrFunctionType := fun a b =>
  decidable_of_iff (IrFunctionType.beq a b = true) (irFunctionTypeBeq_iff a b)

/-- From `type_checker.rs` `TypeCheckError`: the five structured frontend
errors. -/
inductive TypeCheckError where
  | unknownVar (name : String)
  | duplicateDecl (name : String)
  | mismatchedTypes (expected found : IrType)
  | notAFunction (found : IrType)
  | notAnAction (found : IrType)
deriving DecidableEq

/-! ## AST (`ast.rs`), reconstructed from its use in `type_checker.rs` -/

/-- From `ast.rs` `BaseType`; only `Bool` is handled by the type checker. -/
inductive BaseType where
  | bool
deriving DecidableEq

/-- From `ast.rs` `TypeRef`: a base type or a named (struct) type. -/
inductive TypeRef where
  | base (b : BaseType)
  | identifier (name : String)
deriving DecidableEq

mutual
/-- From `ast.rs` `Expr`. -/
inductive Expr where
  | bool (value : Bool)
  | var (name : String)
  | and (left right : Expr)
  | or (left right : Expr)
  | negation (inner : Expr)
  | functionCall (call : FunctionCall)

/-- From `ast.rs` `FunctionCall { target, arguments }`. -/
inductive FunctionCall where
  | mk (target : String) (arguments : List Argument)

/-- From `ast.rs` `Argument`. -/
inductive Argument where
  | value (value : Expr)
  | named (name : String) (value : Expr)
  | dontCare
end

/-- Target name of a function call. -/
def FunctionCall.target : FunctionCall → String
  | .mk t _ => t

/-- Argument list of a function call. -/
def FunctionCall.arguments : FunctionCall → List Argument
  | .mk _ args => args

/-- From `ast.rs` `Param { ty, name, direction }`. -/
structure Param where
  ty : TypeRef
  name : String
  direction : Direction

/-- From `ast.rs` `VariableDecl { ty, name, value }`. -/
structure VariableDecl where
  ty : TypeRef
  name : String
  value : Option Expr

/-- From `ast.rs` `ConstantDecl { ty, name, value }`. -/
structure ConstantDecl where
  ty : TypeRef
  name : String
  value : Expr

/-- From `ast.rs` `Instantiation { ty, name, args }`. -/
structure Instantiation where
  ty : TypeRef
  name : String
  args : List Argument

/-- From `ast.rs` `Assignment { name, value }`. -/
structure Assignment where
  name : String
  value : Expr

mutual
/-- From `ast.rs` `Statement`. -/
inductive Statement where
  | block (block : BlockStatement)
  | ifStmt (ifStatement : IfStatement)
  | assignment (assignment : Assignment)
  | functionCall (call : FunctionCall)

/-- From `ast.rs` `BlockStatement(Vec<StatementOrDecl>)`. -/
inductive BlockStatement where
  | mk (stmts : List StatementOrDecl)

/-- From `ast.rs` `IfStatement { condition, then_case, else_case }`. -/
inductive IfStatement where
  | mk (condition : Expr) (then_case : BlockStatement) (else_case : Option BlockStatement)

/-- From `ast.rs` `StatementOrDecl`. -/
inductive StatementOrDecl where
  | statement (stmt : Statement)
  | variableDecl (decl : VariableDecl)
  | constantDecl (decl : ConstantDecl)
  | instantiation (inst : Instantiation)
end

/-- From `ast.rs` `ActionDecl { name, params, body }`. -/
structure ActionDecl where
  name : String
  params : List Param
  body : BlockStatement

/-- From `ast.rs` `KeyElement { match_kind, expr }`. -/
structure KeyElement where
  match_kind : String
  expr : Expr

/-- From `ast.rs` `TableProperty`: a key list or an action-name list. -/
inductive TableProperty where
  | key (keys : List KeyElement)
  | actions (actions : List String)

/-- From `ast.rs` `TableDecl { name, properties }`. -/
structure TableDecl where
  name : String
  properties : List TableProperty

/-- From `ast.rs` `ControlLocalDecl`. -/
inductive ControlLocalDecl where
  | variable (decl : VariableDecl)
  | instantiation (inst : Instantiation)
  | constant (decl : ConstantDecl)
  | action (decl : ActionDecl)
  | table (decl : TableDecl)

/-- From `ast.rs` `ControlDecl { name, params, local_decls, apply_body }`. -/
structure ControlDecl where
  name : String
  params : List Param
  local_decls : List ControlLocalDecl
  apply_body : BlockStatement

/-- From `ast.rs` `StructDecl`; its contents are ignored by the type
checker. -/
inductive StructDecl where
  | mk

/-- From `ast.rs` `Declaration`. -/
inductive Declaration where
  | struct (decl : StructDecl)
  | control (decl : ControlDecl)
  | constant (decl : ConstantDecl)
  | instantiation (inst : Instantiation)

/-- From `ast.rs` `Program { declarations }`. -/
structure Program where
  declarations : List Declaration

/-! ## IR (`ir.rs`), reconstructed from its use in `type_checker.rs` -/

mutual
/-- From `ir.rs` `IrExpr { ty, data }`. -/
inductive IrExpr where
  | mk (ty : IrType) (data : IrExprData)

/-- From `ir.rs` `IrExprData`. -/
inductive IrExprData where
  | bool (value : Bool)
  | var (id : Nat)
  | and (left right : IrExpr)
  | or (left right : IrExpr)
  | negation (inner : IrExpr)
  | functionCall (call : IrFunctionCall)

/-- From `ir.rs` `IrFunctionCall { result_ty, target, arguments }`. -/
inductive IrFunctionCall where
  | mk (result_ty : IrType) (target : Nat) (arguments : List IrArgument)

/-- From `ir.rs` `IrArgument`. -/
inductive IrArgument where
  | value (value : IrExpr)
  | named (id : Nat) (value : IrExpr)
  | dontCare
end

/-- Type annotation of an IR expression. -/
def IrExpr.ty : IrExpr → IrType
  | .mk t _ => t

/-- Payload of an IR expression. -/
def IrExpr.data : IrExpr → IrExprData
  | .mk _ d => d

/-- Result type of an IR function call. -/
def IrFunctionCall.result_ty : IrFunctionCall → IrType
  | .mk r _ _ => r

/-- From `ir.rs` `IrParam { ty, id, direction }`. -/
structure IrParam where
  ty : IrType
  id : Nat
  direction : Direction

/-- From `ir.rs` `IrVariableDecl { ty, id, value, is_const }`. -/
structure IrVariableDecl where
  ty : IrType
  id : Nat
  value : Option IrExpr
  is_const : Bool

/-- From `ir.rs` `IrInstantiation { ty, id, args }`. -/
structure IrInstantiation where
  ty : IrType
  id : Nat
  args : List IrArgument

/-- From `ir.rs` `IrAssignment { var, value }`. -/
structure IrAssignment where
  var : Nat
  value : IrExpr

mutual
/-- From `ir.rs` `IrStatement`. -/
inductive IrStatement where
  | block (block : IrBlockStatement)
  | ifStmt (ifStatement : IrIfStatement)
  | assignment (assignment : IrAssignment)
  | functionCall (call : IrFunctionCall)

/-- From `ir.rs` `IrBlockStatement(Vec<IrStatementOrDecl>)`. -/
inductive IrBlockStatement where
  | mk (stmts : List IrStatementOrDecl)

/-- From `ir.rs` `IrIfStatement { condition, then_case, else_case }`. -/
inductive IrIfStatement where
  | mk (condition : IrExpr) (then_case : IrBlockStatement)
      (else_case : Option IrBlockStatement)

/-- From `ir.rs` `IrStatementOrDecl`. -/
inductive IrStatementOrDecl where
  | statement (stmt : IrStatement)
  | variableDecl (decl : IrVariableDecl)
  | instantiation (inst : IrInstantiation)
end

/-- From `ir.rs` `IrActionDecl { ty, id, params, body }`. -/
structure IrActionDecl where
  ty : IrFunctionType
  id : Nat
  params : List IrParam
  body : IrBlockStatement

/-- From `ir.rs` `IrKeyElement { match_kind, expr }`. -/
structure IrKeyElement where
  match_kind : String
  expr : IrExpr

/-- From `ir.rs` `IrTableProperty`. -/
inductive IrTableProperty where
  | key (keys : List IrKeyElement)
  | actions (ids : List Nat)

/-- From `ir.rs` `IrTableDecl { id, properties }`. -/
structure IrTableDecl where
  id : Nat
  properties : List IrTableProperty

/-- From `ir.rs` `IrControlLocalDecl`. -/
inductive IrControlLocalDecl where
  | variable (decl : IrVariableDecl)
  | instantiation (inst : IrInstantiation)
  | action (decl : IrActionDecl)
  | table (decl : IrTableDecl)

/-- From `ir.rs` `IrControlDecl { params, local_decls, apply_body }`. -/
structure IrControlDecl where
  params : List IrParam
  local_decls : List IrControlLocalDecl
  apply_body : IrBlockStatement

/-- From `ir.rs` `IrStructDecl` (empty placeholder). -/
inductive IrStructDecl where
  | mk

/-- From `ir.rs` `IrDeclaration`. -/
inductive IrDeclaration where
  | struct (decl : IrStructDecl)
  | control (decl : IrControlDecl)
  | constant (decl : IrVariableDecl)
  | instantiation (inst : IrInstantiation)

/-- From `ir.rs` `IrProgram { declarations }`. -/
structure IrProgram where
  declarations : List IrDeclaration

/-! ## Environment (`type_checker.rs`) -/

/-- Association-list model of `HashMap::get`: the value stored at the
first (and, for unique keys, only) occurrence of the key. -/
def alookup {κ ν : Type} [DecidableEq κ] (m : List (κ × ν)) (k : κ) : Option ν :=
  match m with
  | [] => none
  | (k₁, v) :: t => if k = k₁ then some v else alookup t k

/-- Association-list model of `HashMap::insert`: overwrite the existing
entry for the key, or append a new entry. -/
def listInsert {κ ν : Type} [DecidableEq κ] (m : List (κ × ν)) (k : κ) (v : ν) :
    List (κ × ν) :=
  if (alookup m k).isSome then
    m.map (fun p => if p.1 = k then (k, v) else p)
  else
    m ++ [(k, v)]

/-- From `type_checker.rs` `ProgramMetadata { var_types }`. -/
structure ProgramMetadata where
  var_types : List (Nat × IrType)

/-- From `type_checker.rs` `Environment { variables }`: one scope's map from
variable name to id.  (`variables` is a reserved token in Lean, hence
the field is named `vars`.) -/
structure Environment where
  vars : List (String × Nat)

/-- From `type_checker.rs` `EnvironmentStack { stack, var_tys, next_id }`.
The head of `stack` is the innermost (most recently pushed) scope,
matching `Vec` access through `last_mut`/`pop`/`iter().rev()`. -/
structure EnvironmentStack where
  stack : List Environment
  var_tys : List (Nat × IrType)
  next_id : Nat

/-- Mirrors `EnvironmentStack::new()` (the `Default` instance). -/
def EnvironmentStack.new : EnvironmentStack := ⟨[], [], 0⟩

/-- Mirrors `EnvironmentStack::get_var`: innermost-first name resolution
followed by a type lookup. -/
def EnvironmentStack.get_var (env : EnvironmentStack) (name : String) :
    Option (Nat × IrType) :=
  match env.stack.findSome? (fun e => alookup e.vars name) with
  | none => none
  | some id =>
    match alookup env.var_tys id with
    | none => none
    | some ty => some (id, ty)

/-- Mirrors `EnvironmentStack::get_var_or_err`. -/
def EnvironmentStack.get_var_or_err (env : EnvironmentStack) (name : String) :
    Except TypeCheckError (Nat × IrType) :=
  match env.get_var name with
  | some r => .ok r
  | none => .error (.unknownVar name)

/-- Shared body of `EnvironmentStack::insert` once the (possibly freshly
created) innermost scope is in hand. -/
def insertTop (top : Environment) (rest : List Environment)
    (tys : List (Nat × IrType)) (nid : Nat) (name : String) (ty : IrType) :
    Except TypeCheckError (Nat × EnvironmentStack) :=
  if (alookup top.vars name).isSome then
    .error (.duplicateDecl name)
  else
    .ok (nid, ⟨⟨listInsert top.vars name nid⟩ :: rest, listInsert tys nid ty, nid + 1⟩)

/-- Mirrors `EnvironmentStack::insert`: push a scope if the stack is empty, fail
on a duplicate in the innermost scope, otherwise allocate `next_id`. -/
def EnvironmentStack.insert (env : EnvironmentStack) (name : String) (ty : IrType) :
    Except TypeCheckError (Nat × EnvironmentStack) :=
  match env.stack with
  | [] => insertTop ⟨[]⟩ [] env.var_tys env.next_id name ty
  | top :: rest => insertTop top rest env.var_tys env.next_id name ty

/-- Mirrors `EnvironmentStack::push_scope`. -/
def EnvironmentStack.push_scope (env : EnvironmentStack) : EnvironmentStack :=
  { env with stack := ⟨[]⟩ :: env.stack }

/-- Mirrors `EnvironmentStack::pop_scope`. -/
def EnvironmentStack.pop_scope (env : EnvironmentStack) : EnvironmentStack :=
  { env with stack := env.stack.tail }

/-! ## Result-threading combinators (the Rust `?` operator) -/

/-- Sequencing of a state-threading step (`?` on a
`Result<(_, env), _>`-shaped computation). -/
def tcBind {α β : Type}
    (m : Except TypeCheckError (α × EnvironmentStack))
    (f : α → EnvironmentStack → Except TypeCheckError (β × EnvironmentStack)) :
    Except TypeCheckError (β × EnvironmentStack) :=
  match m with
  | .error e => .error e
  | .ok (a, env) => f a env

/-- Sequencing of a stateless step (`?` on a plain `Result`). -/
def exBind {α β : Type} (m : Except TypeCheckError α)
    (f : α → Except TypeCheckError β) : Except TypeCheckError β :=
  match m with
  | .error e => .error e
  | .ok a => f a

/-- Sequencing after a check returning `Result<(), _>`. -/
def tcSeq {β : Type} (m : Except TypeCheckError Unit)
    (k : Except TypeCheckError β) : Except TypeCheckError β :=
  match m with
  | .error e => .error e
  | .ok _ => k

/-- From `type_checker.rs` `assert_ty`. -/
def assert_ty (found expected : IrType) : Except TypeCheckError Unit :=
  if found = expected then
    .ok ()
  else
    .error (.mismatchedTypes expected found)

/-! ## `TypeCheck` implementations (`type_checker.rs`) -/

/-- Mirrors `impl TypeCheck for BaseType`. -/
def BaseType.type_check (b : BaseType) (env : EnvironmentStack) :
    Except TypeCheckError (IrBaseType × EnvironmentStack) :=
  match b with
  | .bool => .ok (.bool, env)

/-- Mirrors `impl TypeCheck for TypeRef`. -/
def TypeRef.type_check (t : TypeRef) (env : EnvironmentStack) :
    Except TypeCheckError (IrType × EnvironmentStack) :=
  match t with
  | .base base_ty => tcBind (base_ty.type_check env) fun b env => .ok (IrType.base b, env)
  | .identifier name => .ok (IrType.struct ⟨name⟩, env)

mutual
/-- Mirrors `impl TypeCheck for Expr`. -/
def Expr.type_check (e : Expr) (env : EnvironmentStack) :
    Except TypeCheckError (IrExpr × EnvironmentStack) :=
  match e with
  | .bool value => .ok (⟨IrType.bool, .bool value⟩, env)
  | .var name =>
    exBind (env.get_var_or_err name) fun r =>
    .ok (⟨r.2, .var r.1⟩, env)
  | .and left right =>
    tcBind (left.type_check env) fun left_ir env =>
    tcBind (right.type_check env) fun right_ir env =>
    tcSeq (assert_ty left_ir.ty IrType.bool)
    (tcSeq (assert_ty right_ir.ty IrType.bool)
    (.ok (⟨IrType.bool, .and left_ir right_ir⟩, env)))
  | .or left right =>
    tcBind (left.type_check env) fun left_ir env =>
    tcBind (right.type_check env) fun right_ir env =>
    tcSeq (assert_ty left_ir.ty IrType.bool)
    (tcSeq (assert_ty right_ir.ty IrType.bool)
    (.ok (⟨IrType.bool, .or left_ir right_ir⟩, env)))
  | .negation inner =>
    tcBind (inner.type_check env) fun inner_ir env =>
    tcSeq (assert_ty inner_ir.ty IrType.bool)
    (.ok (⟨IrType.bool, .negation inner_ir⟩, env))
  | .functionCall call =>
    tcBind (call.type_check env) fun call_ir env =>
    .ok (⟨call_ir.result_ty, .functionCall call_ir⟩, env)

/-- Mirrors `impl TypeCheck for FunctionCall`. -/
def FunctionCall.type_check (c : FunctionCall) (env : EnvironmentStack) :
    Except TypeCheckError (IrFunctionCall × EnvironmentStack) :=
  match c with
  | .mk target arguments =>
    exBind (env.get_var_or_err target) fun tr =>
    tcBind (Argument.type_check_list arguments env) fun args env =>
    match tr.2 with
    | .function func_ty => .ok (⟨func_ty.result, tr.1, args⟩, env)
    | _ => .error (.notAFunction tr.2)

/-- Mirrors `impl TypeCheck for Argument`. -/
def Argument.type_check (a : Argument) (env : EnvironmentStack) :
    Except TypeCheckError (IrArgument × EnvironmentStack) :=
  match a with
  | .value value =>
    tcBind (value.type_check env) fun ir env => .ok (.value ir, env)
  | .named name value =>
    exBind (env.get_var_or_err name) fun r =>
    tcBind (value.type_check env) fun ir env =>
    .ok (.named r.1 ir, env)
  | .dontCare => .ok (.dontCare, env)

/-- Mirrors `impl TypeCheck for Vec<Argument>`. -/
def Argument.type_check_list (l : List Argument) (env : EnvironmentStack) :
    Except TypeCheckError (List IrArgument × EnvironmentStack) :=
  match l with
  | [] => .ok ([], env)
  | a :: rest =>
    tcBind (a.type_check env) fun ir env =>
    tcBind (Argument.type_check_list rest env) fun irs env =>
    .ok (ir :: irs, env)
end

/-- Mirrors `impl TypeCheck for Option<Expr>`. -/
def optExpr_type_check (o : Option Expr) (env : EnvironmentStack) :
    Except TypeCheckError (Option IrExpr × EnvironmentStack) :=
  match o with
  | none => .ok (none, env)
  | some e => tcBind (e.type_check env) fun ir env => .ok (some ir, env)

/-- The `if let Some(value) = &value { assert_ty(..)? }` step of
`VariableDecl::type_check`. -/
def assert_ty_opt (value : Option IrExpr) (ty : IrType) : Except TypeCheckError Unit :=
  match value with
  | none => .ok ()
  | some v => assert_ty v.ty ty

/-- Mirrors `impl TypeCheck for VariableDecl`. -/
def VariableDecl.type_check (v : VariableDecl) (env : EnvironmentStack) :
    Except TypeCheckError (IrVariableDecl × EnvironmentStack) :=
  tcBind (v.ty.type_check env) fun ty env =>
  tcBind (optExpr_type_check v.value env) fun value env =>
  tcBind (env.insert v.name ty) fun id env =>
  tcSeq (assert_ty_opt value ty)
  (.ok (⟨ty, id, value, false⟩, env))

/-- Mirrors `impl TypeCheck for ConstantDecl`. -/
def ConstantDecl.type_check (c : ConstantDecl) (env : EnvironmentStack) :
    Except TypeCheckError (IrVariableDecl × EnvironmentStack) :=
  tcBind (c.ty.type_check env) fun ty env =>
  tcBind (c.value.type_check env) fun value env =>
  tcBind (env.insert c.name ty) fun id env =>
  tcSeq (assert_ty value.ty ty)
  (.ok (⟨ty, id, some value, true⟩, env))

/-- Mirrors `impl TypeCheck for Instantiation`. -/
def Instantiation.type_check (i : Instantiation) (env : EnvironmentStack) :
    Except TypeCheckError (IrInstantiation × EnvironmentStack) :=
  tcBind (i.ty.type_check env) fun ty env =>
  tcBind (Argument.type_check_list i.args env) fun args env =>
  tcBind (env.insert i.name ty) fun id env =>
  .ok (⟨ty, id, args⟩, env)

/-- Mirrors `impl TypeCheck for Assignment`. -/
def Assignment.type_check (a : Assignment) (env : EnvironmentStack) :
    Except TypeCheckError (IrAssignment × EnvironmentStack) :=
  exBind (env.get_var_or_err a.name) fun r =>
  tcBind (a.value.type_check env) fun value env =>
  tcSeq (assert_ty value.ty r.2)
  (.ok (⟨r.1, value⟩, env))

mutual
/-- Mirrors `impl TypeCheck for Statement`. -/
def Statement.type_check (s : Statement) (env : EnvironmentStack) :
    Except TypeCheckError (IrStatement × EnvironmentStack) :=
  match s with
  | .block b => tcBind (b.type_check env) fun ir env => .ok (.block ir, env)
  | .ifStmt i => tcBind (i.type_check env) fun ir env => .ok (.ifStmt ir, env)
  | .assignment a => tcBind (a.type_check env) fun ir env => .ok (.assignment ir, env)
  | .functionCall c => tcBind (c.type_check env) fun ir env => .ok (.functionCall ir, env)

/-- Mirrors `impl TypeCheck for BlockStatement`: push a scope, check the
statements, pop the scope. -/
def BlockStatement.type_check (b : BlockStatement) (env : EnvironmentStack) :
    Except TypeCheckError (IrBlockStatement × EnvironmentStack) :=
  match b with
  | .mk stmts =>
    tcBind (StatementOrDecl.type_check_list stmts env.push_scope) fun irs env =>
    .ok (.mk irs, env.pop_scope)

/-- Mirrors `impl TypeCheck for IfStatement`. -/
def IfStatement.type_check (i : IfStatement) (env : EnvironmentStack) :
    Except TypeCheckError (IrIfStatement × EnvironmentStack) :=
  match i with
  | .mk condition then_case else_case =>
    tcBind (condition.type_check env) fun cond env =>
    tcBind (then_case.type_check env) fun thn env =>
    tcBind (optBlock_type_check else_case env) fun els env =>
    tcSeq (assert_ty cond.ty IrType.bool)
    (.ok (.mk cond thn els, env))

/-- Mirrors `impl TypeCheck for Option<BlockStatement>`. -/
def optBlock_type_check (o : Option BlockStatement) (env : EnvironmentStack) :
    Except TypeCheckError (Option IrBlockStatement × EnvironmentStack) :=
  match o with
  | none => .ok (none, env)
  | some b => tcBind (b.type_check env) fun ir env => .ok (some ir, env)

/-- Mirrors `impl TypeCheck for StatementOrDecl`. -/
def StatementOrDecl.type_check (s : StatementOrDecl) (env : EnvironmentStack) :
    Except TypeCheckError (IrStatementOrDecl × EnvironmentStack) :=
  match s with
  | .statement stmt =>
    tcBind (stmt.type_check env) fun ir env => .ok (.statement ir, env)
  | .variableDecl decl =>
    tcBind (decl.type_check env) fun ir env => .ok (.variableDecl ir, env)
  | .constantDecl decl =>
    tcBind (decl.type_check env) fun ir env => .ok (.variableDecl ir, env)
  | .instantiation inst =>
    tcBind (inst.type_check env) fun ir env => .ok (.instantiation ir, env)

/-- Mirrors `impl TypeCheck for Vec<StatementOrDecl>`. -/
def StatementOrDecl.type_check_list (l : List StatementOrDecl) (env : EnvironmentStack) :
    Except TypeCheckError (List IrStatementOrDecl × EnvironmentStack) :=
  match l with
  | [] => .ok ([], env)
  | s :: rest =>
    tcBind (s.type_check env) fun ir env =>
    tcBind (StatementOrDecl.type_check_list rest env) fun irs env =>
    .ok (ir :: irs, env)
end

/-- Mirrors `impl TypeCheck for Param`. -/
def Param.type_check (p : Param) (env : EnvironmentStack) :
    Except TypeCheckError (IrParam × EnvironmentStack) :=
  tcBind (p.ty.type_check env) fun ty env =>
  tcBind (env.insert p.name ty) fun id env =>
  .ok (⟨ty, id, p.direction⟩, env)

/-- Mirrors `impl TypeCheck for Vec<Param>`. -/
def Param.type_check_list (l : List Param) (env : EnvironmentStack) :
    Except TypeCheckError (List IrParam × EnvironmentStack) :=
  match l with
  | [] => .ok ([], env)
  | p :: rest =>
    tcBind (p.type_check env) fun ir env =>
    tcBind (Param.type_check_list rest env) fun irs env =>
    .ok (ir :: irs, env)

/-- Mirrors `impl TypeCheck for ActionDecl`: parameters and body are checked in
a fresh scope which is popped before the action's own name is
inserted. -/
def ActionDecl.type_check (a : ActionDecl) (env : EnvironmentStack) :
    Except TypeCheckError (IrActionDecl × EnvironmentStack) :=
  tcBind (Param.type_check_list a.params env.push_scope) fun params env =>
  tcBind (a.body.type_check env) fun body env =>
  let env := env.pop_scope
  let ty : IrFunctionType :=
    ⟨IrType.base .void, params.map fun param => (param.ty, param.direction)⟩
  tcBind (env.insert a.name (.function ty)) fun id env =>
  .ok (⟨ty, id, params, body⟩, env)

/-- Mirrors `impl TypeCheck for KeyElement`. -/
def KeyElement.type_check (k : KeyElement) (env : EnvironmentStack) :
    Except TypeCheckError (IrKeyElement × EnvironmentStack) :=
  tcBind (k.expr.type_check env) fun ir env =>
  .ok (⟨k.match_kind, ir⟩, env)

/-- Mirrors `impl TypeCheck for Vec<KeyElement>`. -/
def KeyElement.type_check_list (l : List KeyElement) (env : EnvironmentStack) :
    Except TypeCheckError (List IrKeyElement × EnvironmentStack) :=
  match l with
  | [] => .ok ([], env)
  | k :: rest =>
    tcBind (k.type_check env) fun ir env =>
    tcBind (KeyElement.type_check_list rest env) fun irs env =>
    .ok (ir :: irs, env)

/-- The per-name closure in `TableProperty::type_check`'s `Actions`
arm: resolve the name and require a function type returning `Void`. -/
def resolve_action (env : EnvironmentStack) (action : String) :
    Except TypeCheckError Nat :=
  exBind (env.get_var_or_err action) fun r =>
  match r.2 with
  | .function f =>
    match f.result with
    | .base .void => .ok r.1
    | _ => .error (.notAnAction r.2)
  | _ => .error (.notAnAction r.2)

/-- The `collect::<Result<_, _>>` over the action names. -/
def resolve_action_list (env : EnvironmentStack) (l : List String) :
    Except TypeCheckError (List Nat) :=
  match l with
  | [] => .ok []
  | a :: rest =>
    exBind (resolve_action env a) fun id =>
    exBind (resolve_action_list env rest) fun ids =>
    .ok (id :: ids)

/-- Mirrors `impl TypeCheck for TableProperty`. -/
def TableProperty.type_check (p : TableProperty) (env : EnvironmentStack) :
    Except TypeCheckError (IrTableProperty × EnvironmentStack) :=
  match p with
  | .key keys =>
    tcBind (KeyElement.type_check_list keys env) fun irs env =>
    .ok (.key irs, env)
  | .actions acts =>
    exBind (resolve_action_list env acts) fun ids =>
    .ok (.actions ids, env)

/-- Mirrors `impl TypeCheck for Vec<TableProperty>`. -/
def TableProperty.type_check_list (l : List TableProperty) (env : EnvironmentStack) :
    Except TypeCheckError (List IrTableProperty × EnvironmentStack) :=
  match l with
  | [] => .ok ([], env)
  | p :: rest =>
    tcBind (p.type_check env) fun ir env =>
    tcBind (TableProperty.type_check_list rest env) fun irs env =>
    .ok (ir :: irs, env)

/-- Mirrors `impl TypeCheck for TableDecl`. -/
def TableDecl.type_check (t : TableDecl) (env : EnvironmentStack) :
    Except TypeCheckError (IrTableDecl × EnvironmentStack) :=
  tcBind (TableProperty.type_check_list t.properties env) fun properties env =>
  tcBind (env.insert t.name (.base .table)) fun id env =>
  .ok (⟨id, properties⟩, env)

/-- Mirrors `impl TypeCheck for ControlLocalDecl`. -/
def ControlLocalDecl.type_check (d : ControlLocalDecl) (env : EnvironmentStack) :
    Except TypeCheckError (IrControlLocalDecl × EnvironmentStack) :=
  match d with
  | .variable decl =>
    tcBind (decl.type_check env) fun ir env => .ok (.variable ir, env)
  | .instantiation inst =>
    tcBind (inst.type_check env) fun ir env => .ok (.instantiation ir, env)
  | .constant decl =>
    tcBind (decl.type_check env) fun ir env => .ok (.variable ir, env)
  | .action decl =>
    tcBind (decl.type_check env) fun ir env => .ok (.action ir, env)
  | .table decl =>
    tcBind (decl.type_check env) fun ir env => .ok (.table ir, env)

/-- Mirrors `impl TypeCheck for Vec<ControlLocalDecl>`. -/
def ControlLocalDecl.type_check_list (l : List ControlLocalDecl) (env : EnvironmentStack) :
    Except TypeCheckError (List IrControlLocalDecl × EnvironmentStack) :=
  match l with
  | [] => .ok ([], env)
  | d :: rest =>
    tcBind (d.type_check env) fun ir env =>
    tcBind (ControlLocalDecl.type_check_list rest env) fun irs env =>
    .ok (ir :: irs, env)

/-- Mirrors `impl TypeCheck for ControlDecl`: params, local declarations and
the apply body are checked inside one pushed scope. -/
def ControlDecl.type_check (c : ControlDecl) (env : EnvironmentStack) :
    Except TypeCheckError (IrControlDecl × EnvironmentStack) :=
  tcBind (Param.type_check_list c.params env.push_scope) fun params env =>
  tcBind (ControlLocalDecl.type_check_list c.local_decls env) fun local_decls env =>
  tcBind (c.apply_body.type_check env) fun apply_body env =>
  .ok (⟨params, local_decls, apply_body⟩, env.pop_scope)

/-- Mirrors `impl TypeCheck for Declaration`. -/
def Declaration.type_check (d : Declaration) (env : EnvironmentStack) :
    Except TypeCheckError (IrDeclaration × EnvironmentStack) :=
  match d with
  | .struct _ => .ok (.struct .mk, env)
  | .control decl =>
    tcBind (decl.type_check env) fun ir env => .ok (.control ir, env)
  | .constant decl =>
    tcBind (decl.type_check env) fun ir env => .ok (.constant ir, env)
  | .instantiation inst =>
    tcBind (inst.type_check env) fun ir env => .ok (.instantiation ir, env)

/-- Mirrors `impl TypeCheck for Vec<Declaration>`. -/
def Declaration.type_check_list (l : List Declaration) (env : EnvironmentStack) :
    Except TypeCheckError (List IrDeclaration × EnvironmentStack) :=
  match l with
  | [] => .ok ([], env)
  | d :: rest =>
    tcBind (d.type_check env) fun ir env =>
    tcBind (Declaration.type_check_list rest env) fun irs env =>
    .ok (ir :: irs, env)

/-- Mirrors `impl TypeCheck for Program`. -/
def Program.type_check (p : Program) (env : EnvironmentStack) :
    Except TypeCheckError (IrProgram × EnvironmentStack) :=
  tcBind (Declaration.type_check_list p.declarations env) fun decls env =>
  .ok (⟨decls⟩, env)

/-- From `type_checker.rs` `run_type_checking`: check the program starting
from a fresh environment stack and convert the final stack into
`ProgramMetadata`. -/
def run_type_checking (program : Program) :
    Except TypeCheckError (IrProgram × ProgramMetadata) :=
  match program.type_check EnvironmentStack.new with
  | .error e => .error e
  | .ok (new_program, env) => .ok (new_program, ⟨env.var_tys⟩)

/-! ## Association-list lemmas -/

theorem alookup_nil {κ ν : Type} [DecidableEq κ] (k : κ) :
    alookup ([] : List (κ × ν)) k = none := rfl

theorem alookup_cons {κ ν : Type} [DecidableEq κ] (a k : κ) (v : ν) (t : List (κ × ν)) :
    alookup ((k, v) :: t) a = if a = k then some v else alookup t a := rfl

theorem alookup_append {κ ν : Type} [DecidableEq κ] (a : κ) (xs ys : List (κ × ν)) :
    alookup (xs ++ ys) a =
      match alookup xs a with
      | some v => some v
      | none => alookup ys a := by
  induction xs with
  | nil => simp [alookup]
  | cons p t ih =>
    obtain ⟨pk, pv⟩ := p
    rw [List.cons_append, alookup_cons, alookup_cons]
    by_cases h : a = pk
    · simp [h]
    · simp [h, ih]

theorem alookup_isSome_iff {κ ν : Type} [DecidableEq κ] (a : κ) (m : List (κ × ν)) :
    (alookup m a).isSome ↔ a ∈ m.map Prod.fst := by
  induction m with
  | nil => simp [alookup]
  | cons p t ih =>
    obtain ⟨pk, pv⟩ := p
    rw [alookup_cons]
    by_cases h : a = pk
    · simp [h]
    · simp [h, ih]

theorem alookup_eq_none_iff {κ ν : Type} [DecidableEq κ] (a : κ) (m : List (κ × ν)) :
    alookup m a = none ↔ a ∉ m.map Prod.fst := by
  rw [← alookup_isSome_iff a m]
  cases alookup m a <;> simp

theorem listInsert_of_not_mem {κ ν : Type} [DecidableEq κ]
    {m : List (κ × ν)} {k : κ} (v : ν) (h : k ∉ m.map Prod.fst) :
    listInsert m k v = m ++ [(k, v)] := by
  have h' : alookup m k = none := (alookup_eq_none_iff k m).mpr h
  rw [listInsert, h']
  simp

theorem alookup_map_overwrite {κ ν : Type} [DecidableEq κ]
    (m : List (κ × ν)) (k : κ) (v : ν) (hs : (alookup m k).isSome) :
    alookup (m.map (fun p => if p.1 = k then (k, v) else p)) k = some v := by
  induction m with
  | nil => simp [alookup] at hs
  | cons p t ih =>
    obtain ⟨pk, pv⟩ := p
    by_cases h : pk = k
    · subst h
      have hhead : (if (pk, pv).1 = pk then (pk, v) else (pk, pv)) = (pk, v) := by simp
      rw [List.map_cons, hhead, alookup_cons, if_pos rfl]
    · have hhead : (if (pk, pv).1 = k then (k, v) else (pk, pv)) = (pk, pv) := by simp [h]
      rw [List.map_cons, hhead, alookup_cons, if_neg (fun hh => h hh.symm)]
      rw [alookup_cons, if_neg (fun hh => h hh.symm)] at hs
      exact ih hs

theorem alookup_map_overwrite_ne {κ ν : Type} [DecidableEq κ]
    (m : List (κ × ν)) {a k : κ} (v : ν) (h : a ≠ k) :
    alookup (m.map (fun p => if p.1 = k then (k, v) else p)) a = alookup m a := by
  induction m with
  | nil => simp
  | cons p t ih =>
    obtain ⟨pk, pv⟩ := p
    by_cases hp : pk = k
    · subst hp
      have hhead : (if (pk, pv).1 = pk then (pk, v) else (pk, pv)) = (pk, v) := by simp
      rw [List.map_cons, hhead, alookup_cons, if_neg h, alookup_cons, if_neg h]
      exact ih
    · have hhead : (if (pk, pv).1 = k then (k, v) else (pk, pv)) = (pk, pv) := by simp [hp]
      rw [List.map_cons, hhead, alookup_cons, alookup_cons]
      by_cases ha : a = pk
      · simp [ha]
      · simp [ha, ih]

theorem alookup_listInsert_self {κ ν : Type} [DecidableEq κ]
    (m : List (κ × ν)) (k : κ) (v : ν) :
    alookup (listInsert m k v) k = some v := by
  rw [listInsert]
  by_cases hs : (alookup m k).isSome
  · rw [if_pos hs]
    exact alookup_map_overwrite m k v hs
  · rw [if_neg hs, alookup_append]
    have hn : alookup m k = none := by
      cases hv : alookup m k
      · rfl
      · rw [hv] at hs
        simp at hs
    rw [hn, alookup_cons, if_pos rfl]

theorem alookup_listInsert_ne {κ ν : Type} [DecidableEq κ]
    (m : List (κ × ν)) {a k : κ} (v : ν) (h : a ≠ k) :
    alookup (listInsert m k v) a = alookup m a := by
  rw [listInsert]
  by_cases hs : (alookup m k).isSome
  · rw [if_pos hs]
    exact alookup_map_overwrite_ne m v h
  · rw [if_neg hs, alookup_append]
    cases hm : alookup m a with
    | none => simp [alookup, h]
    | some w => simp

theorem map_fst_listInsert_of_not_mem {κ ν : Type} [DecidableEq κ]
    {m : List (κ × ν)} {k : κ} (v : ν) (h : k ∉ m.map Prod.fst) :
    (listInsert m k v).map Prod.fst = m.map Prod.fst ++ [k] := by
  rw [listInsert_of_not_mem v h, List.map_append, List.map_cons, List.map_nil]

/-! ## Inversion lemmas for the result-threading combinators -/

theorem tcBind_ok {α β : Type} {m : Except TypeCheckError (α × EnvironmentStack)}
    {f : α → EnvironmentStack → Except TypeCheckError (β × EnvironmentStack)}
    {b : β} {env' : EnvironmentStack} :
    tcBind m f = .ok (b, env') ↔
      ∃ a env₁, m = .ok (a, env₁) ∧ f a env₁ = .ok (b, env') := by
  cases m with
  | error e => simp [tcBind]
  | ok p =>
    obtain ⟨a, env₁⟩ := p
    simp only [tcBind]
    constructor
    · intro h
      exact ⟨a, env₁, rfl, h⟩
    · rintro ⟨a₁, e₁, hm, hf⟩
      simp only [Except.ok.injEq, Prod.mk.injEq] at hm
      obtain ⟨rfl, rfl⟩ := hm
      exact hf

theorem tcBind_error {α β : Type} {m : Except TypeCheckError (α × EnvironmentStack)}
    {f : α → EnvironmentStack → Except TypeCheckError (β × EnvironmentStack)}
    {e : TypeCheckError} :
    tcBind m f = .error e ↔
      m = .error e ∨ ∃ a env₁, m = .ok (a, env₁) ∧ f a env₁ = .error e := by
  cases m with
  | error e' => simp [tcBind]
  | ok p =>
    obtain ⟨a, env₁⟩ := p
    simp only [tcBind]
    constructor
    · intro h
      exact .inr ⟨a, env₁, rfl, h⟩
    · rintro (h | ⟨a₁, e₁, hm, hf⟩)
      · exact absurd h (by simp)
      · simp only [Except.ok.injEq, Prod.mk.injEq] at hm
        obtain ⟨rfl, rfl⟩ := hm
        exact hf

theorem exBind_ok {α β : Type} {m : Except TypeCheckError α}
    {f : α → Except TypeCheckError β} {b : β} :
    exBind m f = .ok b ↔ ∃ a, m = .ok a ∧ f a = .ok b := by
  cases m with
  | error e => simp [exBind]
  | ok a => simp [exBind]

theorem exBind_error {α β : Type} {m : Except TypeCheckError α}
    {f : α → Except TypeCheckError β} {e : TypeCheckError} :
    exBind m f = .error e ↔
      m = .error e ∨ ∃ a, m = .ok a ∧ f a = .error e := by
  cases m with
  | error e' => simp [exBind]
  | ok a => simp [exBind]

theorem tcSeq_ok {β : Type} {m : Except TypeCheckError Unit}
    {k : Except TypeCheckError β} {b : β} :
    tcSeq m k = .ok b ↔ m = .ok () ∧ k = .ok b := by
  cases m with
  | error e => simp [tcSeq]
  | ok u =>
    cases u
    simp [tcSeq]

theorem tcSeq_error {β : Type} {m : Except TypeCheckError Unit}
    {k : Except TypeCheckError β} {e : TypeCheckError} :
    tcSeq m k = .error e ↔ m = .error e ∨ (m = .ok () ∧ k = .error e) := by
  cases m with
  | error e' => simp [tcSeq]
  | ok u =>
    cases u
    simp [tcSeq]

theorem assert_ty_ok {found expected : IrType} :
    assert_ty found expected = .ok () ↔ found = expected := by
  rw [assert_ty]
  by_cases h : found = expected <;> simp [h]

theorem assert_ty_error {found expected : IrType} {e : TypeCheckError} :
    assert_ty found expected = .error e ↔
      found ≠ expected ∧ e = .mismatchedTypes expected found := by
  rw [assert_ty]
  by_cases h : found = expected <;> simp [h, eq_comm]

/-! ## Well-formedness of the environment stack -/

/-- Reachable-state invariant of `EnvironmentStack`: the keys of
`var_tys` are exactly `0, 1, …, next_id - 1` in insertion order, and
every id bound in any scope is below `next_id`. -/
def EnvironmentStack.wf (env : EnvironmentStack) : Prop :=
  env.var_tys.map Prod.fst = List.range env.next_id ∧
  ∀ e ∈ env.stack, ∀ p ∈ e.vars, p.2 < env.next_id

theorem wf_new : EnvironmentStack.new.wf := by
  constructor
  · simp [EnvironmentStack.new]
  · intro e he
    simp [EnvironmentStack.new] at he

theorem wf_push {env : EnvironmentStack} (h : env.wf) : env.push_scope.wf := by
  obtain ⟨h1, h2⟩ := h
  refine ⟨h1, ?_⟩
  intro e he p hp
  rcases List.mem_cons.mp he with rfl | he'
  · simp at hp
  · exact h2 e he' p hp

theorem wf_pop {env : EnvironmentStack} (h : env.wf) : env.pop_scope.wf := by
  obtain ⟨h1, h2⟩ := h
  refine ⟨h1, ?_⟩
  intro e he p hp
  exact h2 e (List.mem_of_mem_tail he) p hp

/-- The innermost scope, or a fresh empty one if the stack is empty
(matching `insert`'s behavior of pushing a scope first). -/
def topEnv (env : EnvironmentStack) : Environment := env.stack.headD ⟨[]⟩

theorem insert_eq_insertTop (env : EnvironmentStack) (name : String) (ty : IrType) :
    env.insert name ty =
      insertTop (topEnv env) env.stack.tail env.var_tys env.next_id name ty := by
  cases h : env.stack with
  | nil => simp [EnvironmentStack.insert, topEnv, h]
  | cons top rest => simp [EnvironmentStack.insert, topEnv, h]

theorem insert_ok_iff {env : EnvironmentStack} {name : String} {ty : IrType}
    {id : Nat} {env' : EnvironmentStack} :
    env.insert name ty = .ok (id, env') ↔
      alookup (topEnv env).vars name = none ∧ id = env.next_id ∧
      env' = ⟨⟨listInsert (topEnv env).vars name env.next_id⟩ :: env.stack.tail,
              listInsert env.var_tys env.next_id ty, env.next_id + 1⟩ := by
  rw [insert_eq_insertTop, insertTop]
  by_cases hv : (alookup (topEnv env).vars name).isSome
  · rw [if_pos hv]
    constructor
    · intro h
      exact absurd h (by simp)
    · rintro ⟨hnone, -, -⟩
      rw [hnone] at hv
      simp at hv
  · rw [if_neg hv]
    have hnone : alookup (topEnv env).vars name = none := by
      cases hh : alookup (topEnv env).vars name
      · rfl
      · rw [hh] at hv
        simp at hv
    constructor
    · intro h
      simp only [Except.ok.injEq, Prod.mk.injEq] at h
      exact ⟨hnone, h.1.symm, h.2.symm⟩
    · rintro ⟨-, rfl, rfl⟩
      rfl

theorem insert_error_iff {env : EnvironmentStack} {name : String} {ty : IrType}
    {e : TypeCheckError} :
    env.insert name ty = .error e ↔
      e = .duplicateDecl name ∧ (alookup (topEnv env).vars name).isSome := by
  rw [insert_eq_insertTop, insertTop]
  by_cases hv : (alookup (topEnv env).vars name).isSome
  · rw [if_pos hv]
    constructor
    · intro h
      simp only [Except.error.injEq] at h
      exact ⟨h.symm, hv⟩
    · rintro ⟨rfl, -⟩
      rfl
  · rw [if_neg hv]
    constructor
    · intro h
      exact absurd h (by simp)
    · rintro ⟨rfl, hs⟩
      exact absurd hs hv

theorem mem_topEnv_vars_lt {env : EnvironmentStack} (hwf : env.wf)
    {p : String × Nat} (hp : p ∈ (topEnv env).vars) : p.2 < env.next_id := by
  cases h : env.stack with
  | nil =>
    rw [topEnv, h] at hp
    simp at hp
  | cons top rest =>
    rw [topEnv, h] at hp
    exact hwf.2 top (by rw [h]; exact List.mem_cons_self top rest) p hp

theorem insert_wf {env : EnvironmentStack} {name : String} {ty : IrType}
    {id : Nat} {env' : EnvironmentStack} (hwf : env.wf)
    (h : env.insert name ty = .ok (id, env')) :
    env'.wf ∧ env'.var_tys = env.var_tys ++ [(env.next_id, ty)] := by
  rw [insert_ok_iff] at h
  obtain ⟨habs, rfl, rfl⟩ := h
  have hfresh : env.next_id ∉ env.var_tys.map Prod.fst := by
    rw [hwf.1]
    simp
  have htys : listInsert env.var_tys env.next_id ty = env.var_tys ++ [(env.next_id, ty)] :=
    listInsert_of_not_mem ty hfresh
  refine ⟨⟨?_, ?_⟩, htys⟩
  · rw [htys]
    simp only [List.map_append, List.map_cons, List.map_nil, hwf.1]
    rw [List.range_succ]
  · intro e he p hp
    have habs' : name ∉ (topEnv env).vars.map Prod.fst :=
      (alookup_eq_none_iff name (topEnv env).vars).mp habs
    rcases List.mem_cons.mp he with rfl | he'
    · rw [listInsert_of_not_mem _ habs'] at hp
      simp only at hp
      rcases List.mem_append.mp hp with hin | hnew
      · exact Nat.lt_succ_of_lt (mem_topEnv_vars_lt hwf hin)
      · simp only [List.mem_singleton] at hnew
        subst hnew
        exact Nat.lt_succ_self _
    · have hmem : e ∈ env.stack := by
        cases hs : env.stack with
        | nil =>
          rw [hs] at he'
          simp at he'
        | cons top rest =>
          rw [hs] at he'
          exact List.mem_cons_of_mem top he'
      exact Nat.lt_succ_of_lt (hwf.2 e hmem p hp)

/-! ## The evolution relation on environment stacks -/

/-- How one type-checking step may change the environment stack:
well-formedness is preserved, ids only grow, `var_tys` is extended at
the end, and only the innermost scope is modified. -/
def Evolves (s s' : EnvironmentStack) : Prop :=
  (s.wf → s'.wf) ∧
  s.next_id ≤ s'.next_id ∧
  (s.wf → ∃ extra, s'.var_tys = s.var_tys ++ extra) ∧
  (∀ h t, s.stack = h :: t → ∃ h', s'.stack = h' :: t) ∧
  (s.stack = [] → s'.stack = [] ∨ ∃ h', s'.stack = [h'])

theorem evolves_refl (s : EnvironmentStack) : Evolves s s := by
  refine ⟨fun h => h, Nat.le_refl _, fun _ => ⟨[], by simp⟩, ?_, fun h => .inl h⟩
  intro h t hs
  exact ⟨h, hs⟩

theorem evolves_trans {s s₁ s₂ : EnvironmentStack}
    (h₁ : Evolves s s₁) (h₂ : Evolves s₁ s₂) : Evolves s s₂ := by
  obtain ⟨w1, n1, v1, c1, e1⟩ := h₁
  obtain ⟨w2, n2, v2, c2, e2⟩ := h₂
  refine ⟨fun h => w2 (w1 h), Nat.le_trans n1 n2, ?_, ?_, ?_⟩
  · intro hwf
    obtain ⟨x1, hx1⟩ := v1 hwf
    obtain ⟨x2, hx2⟩ := v2 (w1 hwf)
    exact ⟨x1 ++ x2, by rw [hx2, hx1, List.append_assoc]⟩
  · intro h t hs
    obtain ⟨h', hs'⟩ := c1 h t hs
    exact c2 h' t hs'
  · intro hs
    rcases e1 hs with hnil | ⟨h', hone⟩
    · exact e2 hnil
    · rcases c2 h' [] hone with ⟨h'', hs''⟩
      exact .inr ⟨h'', hs''⟩

theorem evolves_insert {env : EnvironmentStack} {name : String} {ty : IrType}
    {id : Nat} {env' : EnvironmentStack}
    (h : env.insert name ty = .ok (id, env')) : Evolves env env' := by
  have hspec := insert_ok_iff.mp h
  obtain ⟨habs, hid, henv⟩ := hspec
  refine ⟨fun hwf => (insert_wf hwf h).1, ?_, ?_, ?_, ?_⟩
  · rw [henv]
    exact Nat.le_succ _
  · intro hwf
    exact ⟨[(env.next_id, ty)], (insert_wf hwf h).2⟩
  · intro hh t hs
    rw [henv]
    refine ⟨⟨listInsert (topEnv env).vars name env.next_id⟩, ?_⟩
    rw [hs]
    rfl
  · intro hs
    rw [henv, hs]
    exact .inr ⟨_, rfl⟩

theorem push_scope_stack (env : EnvironmentStack) :
    env.push_scope.stack = ⟨[]⟩ :: env.stack := rfl

theorem pop_stack_of_evolves_push {env env₂ : EnvironmentStack}
    (h : Evolves env.push_scope env₂) : env₂.pop_scope.stack = env.stack := by
  obtain ⟨-, -, -, c, -⟩ := h
  obtain ⟨h', hs⟩ := c ⟨[]⟩ env.stack (push_scope_stack env)
  rw [EnvironmentStack.pop_scope, hs]
  rfl

theorem evolves_of_push_pop {env env₂ : EnvironmentStack}
    (h : Evolves env.push_scope env₂) : Evolves env env₂.pop_scope := by
  have hstack : env₂.pop_scope.stack = env.stack := pop_stack_of_evolves_push h
  obtain ⟨w, n, v, -, -⟩ := h
  refine ⟨?_, n, ?_, ?_, ?_⟩
  · intro hwf
    exact wf_pop (w (wf_push hwf))
  · intro hwf
    exact v (wf_push hwf)
  · intro hh t hs
    exact ⟨hh, by rw [hstack, hs]⟩
  · intro hs
    rw [hstack, hs]
    exact .inl rfl

/-! ## Expressions do not modify the environment -/

theorem get_var_or_err_ok {env : EnvironmentStack} {name : String} {r : Nat × IrType} :
    env.get_var_or_err name = .ok r ↔ env.get_var name = some r := by
  rw [EnvironmentStack.get_var_or_err]
  cases h : env.get_var name <;> simp

theorem get_var_or_err_error {env : EnvironmentStack} {name : String} {e : TypeCheckError} :
    env.get_var_or_err name = .error e ↔
      env.get_var name = none ∧ e = .unknownVar name := by
  rw [EnvironmentStack.get_var_or_err]
  cases h : env.get_var name <;> simp [eq_comm]

theorem baseType_tc_env {b : BaseType} {env : EnvironmentStack} {a : IrBaseType}
    {env' : EnvironmentStack} (h : b.type_check env = .ok (a, env')) : env' = env := by
  cases b
  simp only [BaseType.type_check, Except.ok.injEq, Prod.mk.injEq] at h
  exact h.2.symm

theorem typeRef_tc_env {t : TypeRef} {env : EnvironmentStack} {a : IrType}
    {env' : EnvironmentStack} (h : t.type_check env = .ok (a, env')) : env' = env := by
  cases t with
  | base b =>
    simp only [TypeRef.type_check] at h
    rw [tcBind_ok] at h
    obtain ⟨ib, env₁, h₁, h₂⟩ := h
    simp only [Except.ok.injEq, Prod.mk.injEq] at h₂
    rw [← h₂.2]
    exact baseType_tc_env h₁
  | identifier name =>
    simp only [TypeRef.type_check, Except.ok.injEq, Prod.mk.injEq] at h
    exact h.2.symm

mutual
theorem expr_tc_env : ∀ (e : Expr) (env : EnvironmentStack) (a : IrExpr)
    (env' : EnvironmentStack), e.type_check env = .ok (a, env') → env' = env
  | .bool b, env, a, env' => by
    intro h
    simp only [Expr.type_check, Except.ok.injEq, Prod.mk.injEq] at h
    exact h.2.symm
  | .var name, env, a, env' => by
    intro h
    simp only [Expr.type_check] at h
    rw [exBind_ok] at h
    obtain ⟨r, -, h₂⟩ := h
    simp only [Except.ok.injEq, Prod.mk.injEq] at h₂
    exact h₂.2.symm
  | .and left right, env, a, env' => by
    intro h
    simp only [Expr.type_check] at h
    rw [tcBind_ok] at h
    obtain ⟨lir, env₁, h₁, h⟩ := h
    rw [tcBind_ok] at h
    obtain ⟨rir, env₂, h₂, h⟩ := h
    rw [tcSeq_ok] at h
    obtain ⟨-, h⟩ := h
    rw [tcSeq_ok] at h
    obtain ⟨-, h⟩ := h
    simp only [Except.ok.injEq, Prod.mk.injEq] at h
    rw [← h.2, expr_tc_env right env₁ rir env₂ h₂, expr_tc_env left env lir env₁ h₁]
  | .or left right, env, a, env' => by
    intro h
    simp only [Expr.type_check] at h
    rw [tcBind_ok] at h
    obtain ⟨lir, env₁, h₁, h⟩ := h
    rw [tcBind_ok] at h
    obtain ⟨rir, env₂, h₂, h⟩ := h
    rw [tcSeq_ok] at h
    obtain ⟨-, h⟩ := h
    rw [tcSeq_ok] at h
    obtain ⟨-, h⟩ := h
    simp only [Except.ok.injEq, Prod.mk.injEq] at h
    rw [← h.2, expr_tc_env right env₁ rir env₂ h₂, expr_tc_env left env lir env₁ h₁]
  | .negation inner, env, a, env' => by
    intro h
    simp only [Expr.type_check] at h
    rw [tcBind_ok] at h
    obtain ⟨iir, env₁, h₁, h⟩ := h
    rw [tcSeq_ok] at h
    obtain ⟨-, h⟩ := h
    simp only [Except.ok.injEq, Prod.mk.injEq] at h
    rw [← h.2, expr_tc_env inner env iir env₁ h₁]
  | .functionCall call, env, a, env' => by
    intro h
    simp only [Expr.type_check] at h
    rw [tcBind_ok] at h
    obtain ⟨cir, env₁, h₁, h⟩ := h
    simp only [Except.ok.injEq, Prod.mk.injEq] at h
    rw [← h.2, functionCall_tc_env call env cir env₁ h₁]

theorem functionCall_tc_env : ∀ (c : FunctionCall) (env : EnvironmentStack)
    (a : IrFunctionCall) (env' : EnvironmentStack),
    c.type_check env = .ok (a, env') → env' = env
  | .mk target arguments, env, a, env' => by
    intro h
    simp only [FunctionCall.type_check] at h
    rw [exBind_ok] at h
    obtain ⟨tr, -, h⟩ := h
    obtain ⟨trid, trty⟩ := tr
    rw [tcBind_ok] at h
    obtain ⟨args, env₁, h₁, h⟩ := h
    have henv := argument_tc_list_env arguments env args env₁ h₁
    cases trty with
    | function f =>
      simp only [Except.ok.injEq, Prod.mk.injEq] at h
      rw [← h.2, henv]
    | base b => exact absurd h (by simp)
    | struct st => exact absurd h (by simp)

theorem argument_tc_env : ∀ (a : Argument) (env : EnvironmentStack)
    (ir : IrArgument) (env' : EnvironmentStack),
    a.type_check env = .ok (ir, env') → env' = env
  | .value v, env, ir, env' => by
    intro h
    simp only [Argument.type_check] at h
    rw [tcBind_ok] at h
    obtain ⟨vir, env₁, h₁, h⟩ := h
    simp only [Except.ok.injEq, Prod.mk.injEq] at h
    rw [← h.2, expr_tc_env v env vir env₁ h₁]
  | .named name v, env, ir, env' => by
    intro h
    simp only [Argument.type_check] at h
    rw [exBind_ok] at h
    obtain ⟨r, -, h⟩ := h
    rw [tcBind_ok] at h
    obtain ⟨vir, env₁, h₁, h⟩ := h
    simp only [Except.ok.injEq, Prod.mk.injEq] at h
    rw [← h.2, expr_tc_env v env vir env₁ h₁]
  | .dontCare, env, ir, env' => by
    intro h
    simp only [Argument.type_check, Except.ok.injEq, Prod.mk.injEq] at h
    exact h.2.symm

theorem argument_tc_list_env : ∀ (l : List Argument) (env : EnvironmentStack)
    (irs : List IrArgument) (env' : EnvironmentStack),
    Argument.type_check_list l env = .ok (irs, env') → env' = env
  | [], env, irs, env' => by
    intro h
    simp only [Argument.type_check_list, Except.ok.injEq, Prod.mk.injEq] at h
    exact h.2.symm
  | a :: rest, env, irs, env' => by
    intro h
    simp only [Argument.type_check_list] at h
    rw [tcBind_ok] at h
    obtain ⟨ir, env₁, h₁, h⟩ := h
    rw [tcBind_ok] at h
    obtain ⟨irs₁, env₂, h₂, h⟩ := h
    simp only [Except.ok.injEq, Prod.mk.injEq] at h
    rw [← h.2, argument_tc_list_env rest env₁ irs₁ env₂ h₂, argument_tc_env a env ir env₁ h₁]
end

theorem optExpr_tc_env {o : Option Expr} {env : EnvironmentStack} {a : Option IrExpr}
    {env' : EnvironmentStack} (h : optExpr_type_check o env = .ok (a, env')) : env' = env := by
  cases o with
  | none =>
    simp only [optExpr_type_check, Except.ok.injEq, Prod.mk.injEq] at h
    exact h.2.symm
  | some e =>
    simp only [optExpr_type_check] at h
    rw [tcBind_ok] at h
    obtain ⟨ir, env₁, h₁, h₂⟩ := h
    simp only [Except.ok.injEq, Prod.mk.injEq] at h₂
    rw [← h₂.2, expr_tc_env e env ir env₁ h₁]

/-! ## Environment evolution of declarations and statements -/

theorem variableDecl_evolves {v : VariableDecl} {env : EnvironmentStack}
    {a : IrVariableDecl} {env' : EnvironmentStack}
    (h : v.type_check env = .ok (a, env')) : Evolves env env' := by
  rw [VariableDecl.type_check] at h
  rw [tcBind_ok] at h
  obtain ⟨ty, env₁, hty, h⟩ := h
  rw [tcBind_ok] at h
  obtain ⟨value, env₂, hval, h⟩ := h
  rw [tcBind_ok] at h
  obtain ⟨id, env₃, hins, h⟩ := h
  rw [tcSeq_ok] at h
  obtain ⟨-, h⟩ := h
  simp only [Except.ok.injEq, Prod.mk.injEq] at h
  obtain ⟨-, rfl⟩ := h
  have e1 := typeRef_tc_env hty
  have e2 := optExpr_tc_env hval
  subst e1
  subst e2
  exact evolves_insert hins

theorem constantDecl_evolves {c : ConstantDecl} {env : EnvironmentStack}
    {a : IrVariableDecl} {env' : EnvironmentStack}
    (h : c.type_check env = .ok (a, env')) : Evolves env env' := by
  rw [ConstantDecl.type_check] at h
  rw [tcBind_ok] at h
  obtain ⟨ty, env₁, hty, h⟩ := h
  rw [tcBind_ok] at h
  obtain ⟨value, env₂, hval, h⟩ := h
  rw [tcBind_ok] at h
  obtain ⟨id, env₃, hins, h⟩ := h
  rw [tcSeq_ok] at h
  obtain ⟨-, h⟩ := h
  simp only [Except.ok.injEq, Prod.mk.injEq] at h
  obtain ⟨-, rfl⟩ := h
  have e1 := typeRef_tc_env hty
  have e2 := expr_tc_env _ _ _ _ hval
  subst e1
  subst e2
  exact evolves_insert hins

theorem instantiation_evolves {i : Instantiation} {env : EnvironmentStack}
    {a : IrInstantiation} {env' : EnvironmentStack}
    (h : i.type_check env = .ok (a, env')) : Evolves env env' := by
  rw [Instantiation.type_check] at h
  rw [tcBind_ok] at h
  obtain ⟨ty, env₁, hty, h⟩ := h
  rw [tcBind_ok] at h
  obtain ⟨args, env₂, hargs, h⟩ := h
  rw [tcBind_ok] at h
  obtain ⟨id, env₃, hins, h⟩ := h
  simp only [Except.ok.injEq, Prod.mk.injEq] at h
  obtain ⟨-, rfl⟩ := h
  have e1 := typeRef_tc_env hty
  have e2 := argument_tc_list_env _ _ _ _ hargs
  subst e1
  subst e2
  exact evolves_insert hins

theorem assignment_tc_env {a : Assignment} {env : EnvironmentStack}
    {ir : IrAssignment} {env' : EnvironmentStack}
    (h : a.type_check env = .ok (ir, env')) : env' = env := by
  rw [Assignment.type_check] at h
  rw [exBind_ok] at h
  obtain ⟨r, -, h⟩ := h
  rw [tcBind_ok] at h
  obtain ⟨value, env₁, hval, h⟩ := h
  rw [tcSeq_ok] at h
  obtain ⟨-, h⟩ := h
  simp only [Except.ok.injEq, Prod.mk.injEq] at h
  rw [← h.2, expr_tc_env _ _ _ _ hval]

mutual
theorem statement_evolves : ∀ (s : Statement) (env : EnvironmentStack) (a : IrStatement)
    (env' : EnvironmentStack), s.type_check env = .ok (a, env') → Evolves env env'
  | .block b, env, a, env' => by
    intro h
    simp only [Statement.type_check] at h
    rw [tcBind_ok] at h
    obtain ⟨ir, env₁, h₁, h⟩ := h
    simp only [Except.ok.injEq, Prod.mk.injEq] at h
    obtain ⟨-, rfl⟩ := h
    exact blockStatement_evolves b env ir env₁ h₁
  | .ifStmt i, env, a, env' => by
    intro h
    simp only [Statement.type_check] at h
    rw [tcBind_ok] at h
    obtain ⟨ir, env₁, h₁, h⟩ := h
    simp only [Except.ok.injEq, Prod.mk.injEq] at h
    obtain ⟨-, rfl⟩ := h
    exact ifStatement_evolves i env ir env₁ h₁
  | .assignment asgn, env, a, env' => by
    intro h
    simp only [Statement.type_check] at h
    rw [tcBind_ok] at h
    obtain ⟨ir, env₁, h₁, h⟩ := h
    simp only [Except.ok.injEq, Prod.mk.injEq] at h
    obtain ⟨-, rfl⟩ := h
    rw [assignment_tc_env h₁]
    exact evolves_refl env
  | .functionCall c, env, a, env' => by
    intro h
    simp only [Statement.type_check] at h
    rw [tcBind_ok] at h
    obtain ⟨ir, env₁, h₁, h⟩ := h
    simp only [Except.ok.injEq, Prod.mk.injEq] at h
    obtain ⟨-, rfl⟩ := h
    rw [functionCall_tc_env _ _ _ _ h₁]
    exact evolves_refl env

theorem blockStatement_evolves : ∀ (b : BlockStatement) (env : EnvironmentStack)
    (a : IrBlockStatement) (env' : EnvironmentStack),
    b.type_check env = .ok (a, env') → Evolves env env'
  | .mk stmts, env, a, env' => by
    intro h
    simp only [BlockStatement.type_check] at h
    rw [tcBind_ok] at h
    obtain ⟨irs, env₂, h₁, h⟩ := h
    simp only [Except.ok.injEq, Prod.mk.injEq] at h
    obtain ⟨-, rfl⟩ := h
    exact evolves_of_push_pop (sod_list_evolves stmts env.push_scope irs env₂ h₁)

theorem ifStatement_evolves : ∀ (i : IfStatement) (env : EnvironmentStack)
    (a : IrIfStatement) (env' : EnvironmentStack),
    i.type_check env = .ok (a, env') → Evolves env env'
  | .mk condition then_case else_case, env, a, env' => by
    intro h
    simp only [IfStatement.type_check] at h
    rw [tcBind_ok] at h
    obtain ⟨cond, env₁, h₁, h⟩ := h
    rw [tcBind_ok] at h
    obtain ⟨thn, env₂, h₂, h⟩ := h
    rw [tcBind_ok] at h
    obtain ⟨els, env₃, h₃, h⟩ := h
    rw [tcSeq_ok] at h
    obtain ⟨-, h⟩ := h
    simp only [Except.ok.injEq, Prod.mk.injEq] at h
    obtain ⟨-, rfl⟩ := h
    have e1 := expr_tc_env _ _ _ _ h₁
    subst e1
    exact evolves_trans (blockStatement_evolves then_case env₁ thn env₂ h₂)
      (optBlock_evolves else_case env₂ els env₃ h₃)

theorem optBlock_evolves : ∀ (o : Option BlockStatement) (env : EnvironmentStack)
    (a : Option IrBlockStatement) (env' : EnvironmentStack),
    optBlock_type_check o env = .ok (a, env') → Evolves env env'
  | none, env, a, env' => by
    intro h
    simp only [optBlock_type_check, Except.ok.injEq, Prod.mk.injEq] at h
    rw [← h.2]
    exact evolves_refl env
  | some b, env, a, env' => by
    intro h
    simp only [optBlock_type_check] at h
    rw [tcBind_ok] at h
    obtain ⟨ir, env₁, h₁, h⟩ := h
    simp only [Except.ok.injEq, Prod.mk.injEq] at h
    obtain ⟨-, rfl⟩ := h
    exact blockStatement_evolves b env ir env₁ h₁

theorem sod_evolves : ∀ (s : StatementOrDecl) (env : EnvironmentStack)
    (a : IrStatementOrDecl) (env' : EnvironmentStack),
    s.type_check env = .ok (a, env') → Evolves env env'
  | .statement stmt, env, a, env' => by
    intro h
    simp only [StatementOrDecl.type_check] at h
    rw [tcBind_ok] at h
    obtain ⟨ir, env₁, h₁, h⟩ := h
    simp only [Except.ok.injEq, Prod.mk.injEq] at h
    obtain ⟨-, rfl⟩ := h
    exact statement_evolves stmt env ir env₁ h₁
  | .variableDecl decl, env, a, env' => by
    intro h
    simp only [StatementOrDecl.type_check] at h
    rw [tcBind_ok] at h
    obtain ⟨ir, env₁, h₁, h⟩ := h
    simp only [Except.ok.injEq, Prod.mk.injEq] at h
    obtain ⟨-, rfl⟩ := h
    exact variableDecl_evolves h₁
  | .constantDecl decl, env, a, env' => by
    intro h
    simp only [StatementOrDecl.type_check] at h
    rw [tcBind_ok] at h
    obtain ⟨ir, env₁, h₁, h⟩ := h
    simp only [Except.ok.injEq, Prod.mk.injEq] at h
    obtain ⟨-, rfl⟩ := h
    exact constantDecl_evolves h₁
  | .instantiation inst, env, a, env' => by
    intro h
    simp only [StatementOrDecl.type_check] at h
    rw [tcBind_ok] at h
    obtain ⟨ir, env₁, h₁, h⟩ := h
    simp only [Except.ok.injEq, Prod.mk.injEq] at h
    obtain ⟨-, rfl⟩ := h
    exact instantiation_evolves h₁

theorem sod_list_evolves : ∀ (l : List StatementOrDecl) (env : EnvironmentStack)
    (a : List IrStatementOrDecl) (env' : EnvironmentStack),
    StatementOrDecl.type_check_list l env = .ok (a, env') → Evolves env env'
  | [], env, a, env' => by
    intro h
    simp only [StatementOrDecl.type_check_list, Except.ok.injEq, Prod.mk.injEq] at h
    rw [← h.2]
    exact evolves_refl env
  | s :: rest, env, a, env' => by
    intro h
    simp only [StatementOrDecl.type_check_list] at h
    rw [tcBind_ok] at h
    obtain ⟨ir, env₁, h₁, h⟩ := h
    rw [tcBind_ok] at h
    obtain ⟨irs, env₂, h₂, h⟩ := h
    simp only [Except.ok.injEq, Prod.mk.injEq] at h
    obtain ⟨-, rfl⟩ := h
    exact evolves_trans (sod_evolves s env ir env₁ h₁)
      (sod_list_evolves rest env₁ irs env₂ h₂)
end

theorem param_evolves {p : Param} {env : EnvironmentStack} {a : IrParam}
    {env' : EnvironmentStack} (h : p.type_check env = .ok (a, env')) : Evolves env env' := by
  rw [Param.type_check] at h
  rw [tcBind_ok] at h
  obtain ⟨ty, env₁, hty, h⟩ := h
  rw [tcBind_ok] at h
  obtain ⟨id, env₂, hins, h⟩ := h
  simp only [Except.ok.injEq, Prod.mk.injEq] at h
  obtain ⟨-, rfl⟩ := h
  have e1 := typeRef_tc_env hty
  subst e1
  exact evolves_insert hins

theorem param_list_evolves : ∀ (l : List Param) (env : EnvironmentStack) (a : List IrParam)
    (env' : EnvironmentStack), Param.type_check_list l env = .ok (a, env') → Evolves env env'
  | [], env, a, env' => by
    intro h
    simp only [Param.type_check_list, Except.ok.injEq, Prod.mk.injEq] at h
    rw [← h.2]
    exact evolves_refl env
  | p :: rest, env, a, env' => by
    intro h
    simp only [Param.type_check_list] at h
    rw [tcBind_ok] at h
    obtain ⟨ir, env₁, h₁, h⟩ := h
    rw [tcBind_ok] at h
    obtain ⟨irs, env₂, h₂, h⟩ := h
    simp only [Except.ok.injEq, Prod.mk.injEq] at h
    obtain ⟨-, rfl⟩ := h
    exact evolves_trans (param_evolves h₁) (param_list_evolves rest env₁ irs env₂ h₂)

theorem actionDecl_decompose {a : ActionDecl} {env : EnvironmentStack}
    {ir : IrActionDecl} {env' : EnvironmentStack}
    (h : a.type_check env = .ok (ir, env')) :
    ∃ params env₁ body env₂ id,
      Param.type_check_list a.params env.push_scope = .ok (params, env₁) ∧
      a.body.type_check env₁ = .ok (body, env₂) ∧
      env₂.pop_scope.insert a.name
        (.function ⟨IrType.base .void, params.map fun param => (param.ty, param.direction)⟩) =
        .ok (id, env') ∧
      ir = ⟨⟨IrType.base .void, params.map fun param => (param.ty, param.direction)⟩,
            id, params, body⟩ := by
  rw [ActionDecl.type_check] at h
  rw [tcBind_ok] at h
  obtain ⟨params, env₁, h₁, h⟩ := h
  rw [tcBind_ok] at h
  obtain ⟨body, env₂, h₂, h⟩ := h
  simp only at h
  rw [tcBind_ok] at h
  obtain ⟨id, env₃, h₃, h⟩ := h
  simp only [Except.ok.injEq, Prod.mk.injEq] at h
  obtain ⟨hir, rfl⟩ := h
  exact ⟨params, env₁, body, env₂, id, h₁, h₂, h₃, hir.symm⟩

theorem actionDecl_evolves {a : ActionDecl} {env : EnvironmentStack}
    {ir : IrActionDecl} {env' : EnvironmentStack}
    (h : a.type_check env = .ok (ir, env')) : Evolves env env' := by
  obtain ⟨params, env₁, body, env₂, id, h₁, h₂, h₃, -⟩ := actionDecl_decompose h
  have e1 : Evolves env.push_scope env₂ :=
    evolves_trans (param_list_evolves _ _ _ _ h₁) (blockStatement_evolves _ _ _ _ h₂)
  exact evolves_trans (evolves_of_push_pop e1) (evolves_insert h₃)

theorem keyElement_tc_env {k : KeyElement} {env : EnvironmentStack} {a : IrKeyElement}
    {env' : EnvironmentStack} (h : k.type_check env = .ok (a, env')) : env' = env := by
  rw [KeyElement.type_check] at h
  rw [tcBind_ok] at h
  obtain ⟨ir, env₁, h₁, h⟩ := h
  simp only [Except.ok.injEq, Prod.mk.injEq] at h
  rw [← h.2, expr_tc_env _ _ _ _ h₁]

theorem keyElement_list_tc_env : ∀ (l : List KeyElement) (env : EnvironmentStack)
    (a : List IrKeyElement) (env' : EnvironmentStack),
    KeyElement.type_check_list l env = .ok (a, env') → env' = env
  | [], env, a, env' => by
    intro h
    simp only [KeyElement.type_check_list, Except.ok.injEq, Prod.mk.injEq] at h
    exact h.2.symm
  | k :: rest, env, a, env' => by
    intro h
    simp only [KeyElement.type_check_list] at h
    rw [tcBind_ok] at h
    obtain ⟨ir, env₁, h₁, h⟩ := h
    rw [tcBind_ok] at h
    obtain ⟨irs, env₂, h₂, h⟩ := h
    simp only [Except.ok.injEq, Prod.mk.injEq] at h
    rw [← h.2, keyElement_list_tc_env rest env₁ irs env₂ h₂, keyElement_tc_env h₁]

theorem tableProperty_tc_env {p : TableProperty} {env : EnvironmentStack}
    {a : IrTableProperty} {env' : EnvironmentStack}
    (h : p.type_check env = .ok (a, env')) : env' = env := by
  cases p with
  | key keys =>
    simp only [TableProperty.type_check] at h
    rw [tcBind_ok] at h
    obtain ⟨irs, env₁, h₁, h⟩ := h
    simp only [Except.ok.injEq, Prod.mk.injEq] at h
    rw [← h.2, keyElement_list_tc_env keys env irs env₁ h₁]
  | actions acts =>
    simp only [TableProperty.type_check] at h
    rw [exBind_ok] at h
    obtain ⟨ids, -, h⟩ := h
    simp only [Except.ok.injEq, Prod.mk.injEq] at h
    exact h.2.symm

theorem tableProperty_list_tc_env : ∀ (l : List TableProperty) (env : EnvironmentStack)
    (a : List IrTableProperty) (env' : EnvironmentStack),
    TableProperty.type_check_list l env = .ok (a, env') → env' = env
  | [], env, a, env' => by
    intro h
    simp only [TableProperty.type_check_list, Except.ok.injEq, Prod.mk.injEq] at h
    exact h.2.symm
  | p :: rest, env, a, env' => by
    intro h
    simp only [TableProperty.type_check_list] at h
    rw [tcBind_ok] at h
    obtain ⟨ir, env₁, h₁, h⟩ := h
    rw [tcBind_ok] at h
    obtain ⟨irs, env₂, h₂, h⟩ := h
    simp only [Except.ok.injEq, Prod.mk.injEq] at h
    rw [← h.2, tableProperty_list_tc_env rest env₁ irs env₂ h₂, tableProperty_tc_env h₁]

theorem tableDecl_evolves {t : TableDecl} {env : EnvironmentStack} {a : IrTableDecl}
    {env' : EnvironmentStack} (h : t.type_check env = .ok (a, env')) : Evolves env env' := by
  rw [TableDecl.type_check] at h
  rw [tcBind_ok] at h
  obtain ⟨props, env₁, h₁, h⟩ := h
  rw [tcBind_ok] at h
  obtain ⟨id, env₂, hins, h⟩ := h
  simp only [Except.ok.injEq, Prod.mk.injEq] at h
  obtain ⟨-, rfl⟩ := h
  have e1 := tableProperty_list_tc_env _ _ _ _ h₁
  subst e1
  exact evolves_insert hins

theorem controlLocalDecl_evolves : ∀ {d : ControlLocalDecl} {env : EnvironmentStack}
    {a : IrControlLocalDecl} {env' : EnvironmentStack},
    d.type_check env = .ok (a, env') → Evolves env env'
  | .variable decl, env, a, env' => by
    intro h
    simp only [ControlLocalDecl.type_check] at h
    rw [tcBind_ok] at h
    obtain ⟨ir, env₁, h₁, h⟩ := h
    simp only [Except.ok.injEq, Prod.mk.injEq] at h
    obtain ⟨-, rfl⟩ := h
    exact variableDecl_evolves h₁
  | .instantiation inst, env, a, env' => by
    intro h
    simp only [ControlLocalDecl.type_check] at h
    rw [tcBind_ok] at h
    obtain ⟨ir, env₁, h₁, h⟩ := h
    simp only [Except.ok.injEq, Prod.mk.injEq] at h
    obtain ⟨-, rfl⟩ := h
    exact instantiation_evolves h₁
  | .constant decl, env, a, env' => by
    intro h
    simp only [ControlLocalDecl.type_check] at h
    rw [tcBind_ok] at h
    obtain ⟨ir, env₁, h₁, h⟩ := h
    simp only [Except.ok.injEq, Prod.mk.injEq] at h
    obtain ⟨-, rfl⟩ := h
    exact constantDecl_evolves h₁
  | .action decl, env, a, env' => by
    intro h
    simp only [ControlLocalDecl.type_check] at h
    rw [tcBind_ok] at h
    obtain ⟨ir, env₁, h₁, h⟩ := h
    simp only [Except.ok.injEq, Prod.mk.injEq] at h
    obtain ⟨-, rfl⟩ := h
    exact actionDecl_evolves h₁
  | .table decl, env, a, env' => by
    intro h
    simp only [ControlLocalDecl.type_check] at h
    rw [tcBind_ok] at h
    obtain ⟨ir, env₁, h₁, h⟩ := h
    simp only [Except.ok.injEq, Prod.mk.injEq] at h
    obtain ⟨-, rfl⟩ := h
    exact tableDecl_evolves h₁

theorem controlLocalDecl_list_evolves : ∀ (l : List ControlLocalDecl)
    (env : EnvironmentStack) (a : List IrControlLocalDecl) (env' : EnvironmentStack),
    ControlLocalDecl.type_check_list l env = .ok (a, env') → Evolves env env'
  | [], env, a, env' => by
    intro h
    simp only [ControlLocalDecl.type_check_list, Except.ok.injEq, Prod.mk.injEq] at h
    rw [← h.2]
    exact evolves_refl env
  | d :: rest, env, a, env' => by
    intro h
    simp only [ControlLocalDecl.type_check_list] at h
    rw [tcBind_ok] at h
    obtain ⟨ir, env₁, h₁, h⟩ := h
    rw [tcBind_ok] at h
    obtain ⟨irs, env₂, h₂, h⟩ := h
    simp only [Except.ok.injEq, Prod.mk.injEq] at h
    obtain ⟨-, rfl⟩ := h
    exact evolves_trans (controlLocalDecl_evolves h₁)
      (controlLocalDecl_list_evolves rest env₁ irs env₂ h₂)

theorem controlDecl_evolves {c : ControlDecl} {env : EnvironmentStack} {a : IrControlDecl}
    {env' : EnvironmentStack} (h : c.type_check env = .ok (a, env')) : Evolves env env' := by
  rw [ControlDecl.type_check] at h
  rw [tcBind_ok] at h
  obtain ⟨params, env₁, h₁, h⟩ := h
  rw [tcBind_ok] at h
  obtain ⟨locals, env₂, h₂, h⟩ := h
  rw [tcBind_ok] at h
  obtain ⟨body, env₃, h₃, h⟩ := h
  simp only [Except.ok.injEq, Prod.mk.injEq] at h
  obtain ⟨-, rfl⟩ := h
  have e1 : Evolves env.push_scope env₃ :=
    evolves_trans (param_list_evolves _ _ _ _ h₁)
      (evolves_trans (controlLocalDecl_list_evolves _ _ _ _ h₂)
        (blockStatement_evolves _ _ _ _ h₃))
  exact evolves_of_push_pop e1

theorem declaration_evolves {d : Declaration} {env : EnvironmentStack} {a : IrDeclaration}
    {env' : EnvironmentStack} (h : d.type_check env = .ok (a, env')) : Evolves env env' := by
  cases d with
  | struct decl =>
    simp only [Declaration.type_check, Except.ok.injEq, Prod.mk.injEq] at h
    rw [← h.2]
    exact evolves_refl env
  | control decl =>
    simp only [Declaration.type_check] at h
    rw [tcBind_ok] at h
    obtain ⟨ir, env₁, h₁, h⟩ := h
    simp only [Except.ok.injEq, Prod.mk.injEq] at h
    obtain ⟨-, rfl⟩ := h
    exact controlDecl_evolves h₁
  | constant decl =>
    simp only [Declaration.type_check] at h
    rw [tcBind_ok] at h
    obtain ⟨ir, env₁, h₁, h⟩ := h
    simp only [Except.ok.injEq, Prod.mk.injEq] at h
    obtain ⟨-, rfl⟩ := h
    exact constantDecl_evolves h₁
  | instantiation inst =>
    simp only [Declaration.type_check] at h
    rw [tcBind_ok] at h
    obtain ⟨ir, env₁, h₁, h⟩ := h
    simp only [Except.ok.injEq, Prod.mk.injEq] at h
    obtain ⟨-, rfl⟩ := h
    exact instantiation_evolves h₁

theorem declaration_list_evolves : ∀ (l : List Declaration) (env : EnvironmentStack)
    (a : List IrDeclaration) (env' : EnvironmentStack),
    Declaration.type_check_list l env = .ok (a, env') → Evolves env env'
  | [], env, a, env' => by
    intro h
    simp only [Declaration.type_check_list, Except.ok.injEq, Prod.mk.injEq] at h
    rw [← h.2]
    exact evolves_refl env
  | d :: rest, env, a, env' => by
    intro h
    simp only [Declaration.type_check_list] at h
    rw [tcBind_ok] at h
    obtain ⟨ir, env₁, h₁, h⟩ := h
    rw [tcBind_ok] at h
    obtain ⟨irs, env₂, h₂, h⟩ := h
    simp only [Except.ok.injEq, Prod.mk.injEq] at h
    obtain ⟨-, rfl⟩ := h
    exact evolves_trans (declaration_evolves h₁)
      (declaration_list_evolves rest env₁ irs env₂ h₂)

theorem program_evolves {p : Program} {env : EnvironmentStack} {a : IrProgram}
    {env' : EnvironmentStack} (h : p.type_check env = .ok (a, env')) : Evolves env env' := by
  rw [Program.type_check] at h
  rw [tcBind_ok] at h
  obtain ⟨decls, env₁, h₁, h⟩ := h
  simp only [Except.ok.injEq, Prod.mk.injEq] at h
  obtain ⟨-, rfl⟩ := h
  exact declaration_list_evolves _ _ _ _ h₁

theorem run_type_checking_ok {p : Program} {ir : IrProgram} {md : ProgramMetadata}
    (h : run_type_checking p = .ok (ir, md)) :
    ∃ env', p.type_check EnvironmentStack.new = .ok (ir, env') ∧ env'.wf ∧
      md = ⟨env'.var_tys⟩ := by
  rw [run_type_checking] at h
  cases hrun : p.type_check EnvironmentStack.new with
  | error e =>
    rw [hrun] at h
    exact absurd h (by simp)
  | ok r =>
    obtain ⟨irp, env'⟩ := r
    rw [hrun] at h
    simp only [Except.ok.injEq, Prod.mk.injEq] at h
    obtain ⟨rfl, rfl⟩ := h
    exact ⟨env', rfl, (program_evolves hrun).1 wf_new, rfl⟩

/-! ## Lookup preservation -/

theorem alookup_mem {κ ν : Type} [DecidableEq κ] {m : List (κ × ν)} {k : κ} {v : ν}
    (h : alookup m k = some v) : (k, v) ∈ m := by
  induction m with
  | nil => simp [alookup] at h
  | cons p t ih =>
    obtain ⟨pk, pv⟩ := p
    rw [alookup_cons] at h
    by_cases hk : k = pk
    · rw [if_pos hk] at h
      simp only [Option.some.injEq] at h
      rw [hk, h]
      exact List.mem_cons_self _ _
    · rw [if_neg hk] at h
      exact List.mem_cons_of_mem _ (ih h)

theorem findSome?_some {α β : Type} {f : α → Option β} {l : List α} {b : β}
    (h : List.findSome? f l = some b) : ∃ a ∈ l, f a = some b := by
  induction l with
  | nil => simp [List.findSome?] at h
  | cons a t ih =>
    rw [List.findSome?] at h
    cases hf : f a with
    | some b' =>
      rw [hf] at h
      simp only [Option.some.injEq] at h
      exact ⟨a, List.mem_cons_self _ _, by rw [hf, h]⟩
    | none =>
      rw [hf] at h
      obtain ⟨a', ha', hfa'⟩ := ih h
      exact ⟨a', List.mem_cons_of_mem _ ha', hfa'⟩

theorem findSome?_cons_none {α β : Type} (f : α → Option β) (a : α) (l : List α)
    (h : f a = none) : List.findSome? f (a :: l) = List.findSome? f l := by
  rw [List.findSome?, h]

theorem findSome?_cons_some {α β : Type} (f : α → Option β) (a : α) {b : β} (l : List α)
    (h : f a = some b) : List.findSome? f (a :: l) = some b := by
  rw [List.findSome?, h]

theorem get_var_eq_aux {env env' : EnvironmentStack} (hwf : env.wf)
    (hext : ∃ extra, env'.var_tys = env.var_tys ++ extra) (name : String)
    (hfind : List.findSome? (fun e => alookup e.vars name) env'.stack =
             List.findSome? (fun e => alookup e.vars name) env.stack) :
    env'.get_var name = env.get_var name := by
  rw [EnvironmentStack.get_var, EnvironmentStack.get_var, hfind]
  cases hf : List.findSome? (fun e => alookup e.vars name) env.stack with
  | none => rfl
  | some id =>
    obtain ⟨e, he, hee⟩ := findSome?_some hf
    have hmem : (name, id) ∈ e.vars := alookup_mem hee
    have hid : id < env.next_id := hwf.2 e he (name, id) hmem
    have hin : id ∈ env.var_tys.map Prod.fst := by
      rw [hwf.1]
      exact List.mem_range.mpr hid
    have hsome : (alookup env.var_tys id).isSome := (alookup_isSome_iff id env.var_tys).mpr hin
    obtain ⟨extra, hx⟩ := hext
    cases hv : alookup env.var_tys id with
    | none =>
      rw [hv] at hsome
      simp at hsome
    | some ty =>
      simp only [hx, alookup_append, hv]

theorem get_var_push (env : EnvironmentStack) (name : String) :
    env.push_scope.get_var name = env.get_var name := by
  rw [EnvironmentStack.get_var, EnvironmentStack.get_var]
  have hset : List.findSome? (fun e => alookup e.vars name) env.push_scope.stack =
      List.findSome? (fun e => alookup e.vars name) env.stack := by
    rw [push_scope_stack]
    have hnone : alookup (⟨[]⟩ : Environment).vars name = none := rfl
    exact findSome?_cons_none (fun e => alookup e.vars name) (⟨[]⟩ : Environment)
      env.stack hnone
  rw [hset]
  rfl

theorem get_var_insert_self {env : EnvironmentStack} {name : String} {ty : IrType}
    {id : Nat} {env' : EnvironmentStack}
    (h : env.insert name ty = .ok (id, env')) :
    env'.get_var name = some (id, ty) := by
  rw [insert_ok_iff] at h
  obtain ⟨habs, rfl, rfl⟩ := h
  rw [EnvironmentStack.get_var]
  have hfind : List.findSome? (fun e => alookup e.vars name)
      (⟨listInsert (topEnv env).vars name env.next_id⟩ :: env.stack.tail) =
      some env.next_id :=
    findSome?_cons_some (fun e => alookup e.vars name)
      ⟨listInsert (topEnv env).vars name env.next_id⟩ env.stack.tail
      (alookup_listInsert_self _ _ _)
  rw [hfind]
  show (match alookup (listInsert env.var_tys env.next_id ty) env.next_id with
        | none => none
        | some ty => some (env.next_id, ty)) = some (env.next_id, ty)
  rw [alookup_listInsert_self]

theorem get_var_insert_ne {env : EnvironmentStack} {name : String} {ty : IrType}
    {id : Nat} {env' : EnvironmentStack} (hwf : env.wf)
    (h : env.insert name ty = .ok (id, env')) {nm : String} (hne : nm ≠ name) :
    env'.get_var nm = env.get_var nm := by
  rw [insert_ok_iff] at h
  obtain ⟨habs, rfl, rfl⟩ := h
  apply get_var_eq_aux hwf
  · exact ⟨[(env.next_id, ty)],
      listInsert_of_not_mem ty (by rw [hwf.1]; simp)⟩
  · cases hs : env.stack with
    | nil =>
      rw [topEnv, hs]
      simp only [List.headD_nil, List.tail_nil]
      have hnone : alookup (listInsert ([] : List (String × Nat)) name env.next_id) nm =
          none := by
        rw [alookup_listInsert_ne _ _ hne]
        rfl
      rw [findSome?_cons_none (fun e => alookup e.vars nm)
        (⟨listInsert ([] : List (String × Nat)) name env.next_id⟩ : Environment) [] hnone]
    | cons top rest =>
      rw [topEnv, hs]
      simp only [List.headD_cons, List.tail_cons]
      cases ht : alookup top.vars nm with
      | none =>
        have hnone : alookup (listInsert top.vars name env.next_id) nm = none := by
          rw [alookup_listInsert_ne _ _ hne]
          exact ht
        rw [findSome?_cons_none (fun e => alookup e.vars nm)
          (⟨listInsert top.vars name env.next_id⟩ : Environment) rest hnone]
        rw [findSome?_cons_none (fun e => alookup e.vars nm) top rest ht]
      | some v =>
        have hsome : alookup (listInsert top.vars name env.next_id) nm = some v := by
          rw [alookup_listInsert_ne _ _ hne]
          exact ht
        rw [findSome?_cons_some (fun e => alookup e.vars nm)
          (⟨listInsert top.vars name env.next_id⟩ : Environment) rest hsome]
        rw [findSome?_cons_some (fun e => alookup e.vars nm) top rest ht]

/-! ## Error propagation and action resolution -/

theorem declaration_list_append_error {ds₁ : List Declaration} {d : Declaration}
    {ds₂ : List Declaration} {env : EnvironmentStack} {a : List IrDeclaration}
    {env₁ : EnvironmentStack} {err : TypeCheckError}
    (h₁ : Declaration.type_check_list ds₁ env = .ok (a, env₁))
    (h₂ : d.type_check env₁ = .error err) :
    Declaration.type_check_list (ds₁ ++ d :: ds₂) env = .error err := by
  induction ds₁ generalizing env a with
  | nil =>
    simp only [Declaration.type_check_list, Except.ok.injEq, Prod.mk.injEq] at h₁
    obtain ⟨-, rfl⟩ := h₁
    rw [List.nil_append]
    simp only [Declaration.type_check_list]
    rw [tcBind_error]
    exact .inl h₂
  | cons hd tl ih =>
    simp only [Declaration.type_check_list] at h₁
    rw [tcBind_ok] at h₁
    obtain ⟨ir, envh, hh, h₁⟩ := h₁
    rw [tcBind_ok] at h₁
    obtain ⟨irs, envt, ht, h₁⟩ := h₁
    simp only [Except.ok.injEq, Prod.mk.injEq] at h₁
    obtain ⟨-, rfl⟩ := h₁
    rw [List.cons_append]
    simp only [Declaration.type_check_list]
    rw [tcBind_error]
    refine .inr ⟨ir, envh, hh, ?_⟩
    rw [tcBind_error]
    exact .inl (ih ht)

theorem resolve_action_ok {env : EnvironmentStack} {a : String} {id : Nat} :
    resolve_action env a = .ok id ↔
      ∃ f, env.get_var a = some (id, IrType.function f) ∧
        f.result = IrType.base .void := by
  rw [resolve_action]
  constructor
  · intro h
    rw [exBind_ok] at h
    obtain ⟨⟨rid, rty⟩, hr, h⟩ := h
    rw [get_var_or_err_ok] at hr
    dsimp only at h
    cases rty with
    | function f =>
      dsimp only at h
      cases hres : f.result with
      | base b =>
        rw [hres] at h
        cases b
        · exact absurd h (by simp)
        · dsimp only at h
          simp only [Except.ok.injEq] at h
          subst h
          exact ⟨f, hr, hres⟩
        · exact absurd h (by simp)
      | struct s =>
        rw [hres] at h
        exact absurd h (by simp)
      | function g =>
        rw [hres] at h
        exact absurd h (by simp)
    | base b => exact absurd h (by simp)
    | struct s => exact absurd h (by simp)
  · rintro ⟨f, hget, hres⟩
    rw [exBind_ok]
    refine ⟨(id, IrType.function f), get_var_or_err_ok.mpr hget, ?_⟩
    dsimp only
    rw [hres]

theorem resolve_action_unknown {env : EnvironmentStack} {a : String}
    (h : env.get_var a = none) :
    resolve_action env a = .error (.unknownVar a) := by
  rw [resolve_action, EnvironmentStack.get_var_or_err, h]
  rfl

theorem resolve_action_notAnAction {env : EnvironmentStack} {a : String} {id : Nat}
    {ty : IrType} (h : env.get_var a = some (id, ty))
    (hty : ∀ f, ty = IrType.function f → f.result ≠ IrType.base .void) :
    resolve_action env a = .error (.notAnAction ty) := by
  have hg : env.get_var_or_err a = .ok (id, ty) := get_var_or_err_ok.mpr h
  rw [resolve_action, exBind_error]
  refine .inr ⟨(id, ty), hg, ?_⟩
  dsimp only
  cases ty with
  | function f =>
    dsimp only
    cases hres : f.result with
    | base b =>
      cases b
      · rfl
      · exact absurd hres (hty f rfl)
      · rfl
    | struct s => rfl
    | function g => rfl
  | base b => rfl
  | struct s => rfl

theorem resolve_action_list_ok {env : EnvironmentStack} :
    ∀ {l : List String} {ids : List Nat},
    resolve_action_list env l = .ok ids ↔
      List.Forall₂ (fun nm id => ∃ f, env.get_var nm = some (id, IrType.function f) ∧
        f.result = IrType.base .void) l ids := by
  intro l
  induction l with
  | nil =>
    intro ids
    simp only [resolve_action_list, Except.ok.injEq]
    constructor
    · rintro rfl
      exact List.Forall₂.nil
    · intro h
      cases h
      rfl
  | cons a rest ih =>
    intro ids
    simp only [resolve_action_list]
    constructor
    · intro h
      rw [exBind_ok] at h
      obtain ⟨id, hid, h⟩ := h
      rw [exBind_ok] at h
      obtain ⟨ids', hids, h⟩ := h
      simp only [Except.ok.injEq] at h
      subst h
      exact List.Forall₂.cons (resolve_action_ok.mp hid) (ih.mp hids)
    · intro h
      cases h with
      | cons hhd htl =>
        rw [exBind_ok]
        refine ⟨_, resolve_action_ok.mpr hhd, ?_⟩
        rw [exBind_ok]
        exact ⟨_, ih.mpr htl, rfl⟩

theorem resolve_action_list_prefix_error {env : EnvironmentStack} {err : TypeCheckError} :
    ∀ (pre : List String) (nm : String) (post : List String),
    (∀ a ∈ pre, ∃ id f, env.get_var a = some (id, IrType.function f) ∧
       f.result = IrType.base .void) →
    resolve_action env nm = .error err →
    resolve_action_list env (pre ++ nm :: post) = .error err
  | [], nm, post => by
    intro hpre herr
    rw [List.nil_append]
    simp only [resolve_action_list]
    rw [exBind_error]
    exact .inl herr
  | a :: pre, nm, post => by
    intro hpre herr
    obtain ⟨id, f, hget, hres⟩ := hpre a (List.mem_cons_self a pre)
    rw [List.cons_append]
    simp only [resolve_action_list]
    rw [exBind_error]
    refine .inr ⟨id, resolve_action_ok.mpr ⟨f, hget, hres⟩, ?_⟩
    rw [exBind_error]
    exact .inl (resolve_action_list_prefix_error pre nm post
      (fun x hx => hpre x (List.mem_cons_of_mem a hx)) herr)

/-! ## The specification claims -/

/-- C1: for every program that type-checks successfully, the variable
ids recorded in the metadata's `var_types` map are exactly
`{0, 1, …, n-1}` for the `n` declarations processed (dense), and no id
is assigned twice (globally unique). -/
theorem spec_c1_var_ids_dense_unique {p : Program} {ir : IrProgram} {md : ProgramMetadata}
    (h : run_type_checking p = .ok (ir, md)) :
    md.var_types.map Prod.fst = List.range md.var_types.length ∧
    (md.var_types.map Prod.fst).Nodup := by
  obtain ⟨env', hrun, hwf, rfl⟩ := run_type_checking_ok h
  have hkeys : env'.var_tys.map Prod.fst = List.range env'.next_id := hwf.1
  have hlen : env'.var_tys.length = env'.next_id := by
    have hcong := congrArg List.length hkeys
    simpa using hcong
  constructor
  · show env'.var_tys.map Prod.fst = List.range env'.var_tys.length
    rw [hkeys, hlen]
  · show (env'.var_tys.map Prod.fst).Nodup
    rw [hkeys]
    exact List.nodup_range _

/-- Witness for C1 on the program `const bool a = true; const bool b = a`. -/
theorem spec_c1_witness :
    ((⟨[(0, IrType.bool), (1, IrType.bool)]⟩ : ProgramMetadata).var_types.map Prod.fst =
      List.range (⟨[(0, IrType.bool), (1, IrType.bool)]⟩ : ProgramMetadata).var_types.length) ∧
    ((⟨[(0, IrType.bool), (1, IrType.bool)]⟩ : ProgramMetadata).var_types.map Prod.fst).Nodup :=
  @spec_c1_var_ids_dense_unique
    ⟨[.constant ⟨.base .bool, "a", .bool true⟩, .constant ⟨.base .bool, "b", .var "a"⟩]⟩
    ⟨[.constant ⟨IrType.bool, 0, some ⟨IrType.bool, .bool true⟩, true⟩,
      .constant ⟨IrType.bool, 1, some ⟨IrType.bool, .var 0⟩, true⟩]⟩
    ⟨[(0, IrType.bool), (1, IrType.bool)]⟩
    (by rfl)

/-- C2 (code evaluation): on the empty program `run_type_checking`
succeeds and returns a metadata record that consists of `var_types`
alone — the `ProgramMetadata` struct of `type_checker.rs` has no
`types_in_declaration_order` (`types_in_order`) field, although
`main.rs` reads `metadata.types_in_order` and the spec's interface
promises it. -/
theorem spec_c2_metadata_has_only_var_types :
    run_type_checking ⟨[]⟩ = .ok (⟨[]⟩, ⟨[]⟩) := rfl

/-- C3: a boolean connective (`and`, `or`, `not`) type-checks to an IR
expression of type `bool` when all operands have type `bool`, and
fails with a `MismatchedTypes` error (expected `bool`, found the
operand's type) as soon as one operand does not. -/
theorem spec_c3_bool_connectives (l r : Expr) (env : EnvironmentStack)
    (lir rir : IrExpr) (env₁ env₂ : EnvironmentStack)
    (hl : l.type_check env = .ok (lir, env₁))
    (hr : r.type_check env₁ = .ok (rir, env₂)) :
    ((lir.ty = IrType.bool ∧ rir.ty = IrType.bool →
       (Expr.and l r).type_check env = .ok (⟨IrType.bool, .and lir rir⟩, env₂) ∧
       (Expr.or l r).type_check env = .ok (⟨IrType.bool, .or lir rir⟩, env₂)) ∧
     (lir.ty = IrType.bool →
       (Expr.negation l).type_check env = .ok (⟨IrType.bool, .negation lir⟩, env₁))) ∧
    ((lir.ty ≠ IrType.bool →
       (Expr.and l r).type_check env = .error (.mismatchedTypes IrType.bool lir.ty) ∧
       (Expr.or l r).type_check env = .error (.mismatchedTypes IrType.bool lir.ty) ∧
       (Expr.negation l).type_check env = .error (.mismatchedTypes IrType.bool lir.ty)) ∧
     (lir.ty = IrType.bool → rir.ty ≠ IrType.bool →
       (Expr.and l r).type_check env = .error (.mismatchedTypes IrType.bool rir.ty) ∧
       (Expr.or l r).type_check env = .error (.mismatchedTypes IrType.bool rir.ty))) := by
  refine ⟨⟨?_, ?_⟩, ?_, ?_⟩
  · rintro ⟨hlb, hrb⟩
    have hal : assert_ty lir.ty IrType.bool = .ok () := assert_ty_ok.mpr hlb
    have har : assert_ty rir.ty IrType.bool = .ok () := assert_ty_ok.mpr hrb
    constructor
    · simp only [Expr.type_check]
      rw [hl]
      simp only [tcBind]
      rw [hr]
      simp only [tcBind]
      rw [hal]
      simp only [tcSeq]
      rw [har]
    · simp only [Expr.type_check]
      rw [hl]
      simp only [tcBind]
      rw [hr]
      simp only [tcBind]
      rw [hal]
      simp only [tcSeq]
      rw [har]
  · intro hlb
    have hal : assert_ty lir.ty IrType.bool = .ok () := assert_ty_ok.mpr hlb
    simp only [Expr.type_check]
    rw [hl]
    simp only [tcBind]
    rw [hal]
    simp only [tcSeq]
  · intro hlnb
    have hal : assert_ty lir.ty IrType.bool =
        .error (.mismatchedTypes IrType.bool lir.ty) := assert_ty_error.mpr ⟨hlnb, rfl⟩
    refine ⟨?_, ?_, ?_⟩
    · simp only [Expr.type_check]
      rw [hl]
      simp only [tcBind]
      rw [hr]
      simp only [tcBind]
      rw [hal]
      simp only [tcSeq]
    · simp only [Expr.type_check]
      rw [hl]
      simp only [tcBind]
      rw [hr]
      simp only [tcBind]
      rw [hal]
      simp only [tcSeq]
    · simp only [Expr.type_check]
      rw [hl]
      simp only [tcBind]
      rw [hal]
      simp only [tcSeq]
  · intro hlb hrnb
    have hal : assert_ty lir.ty IrType.bool = .ok () := assert_ty_ok.mpr hlb
    have har : assert_ty rir.ty IrType.bool =
        .error (.mismatchedTypes IrType.bool rir.ty) := assert_ty_error.mpr ⟨hrnb, rfl⟩
    constructor
    · simp only [Expr.type_check]
      rw [hl]
      simp only [tcBind]
      rw [hr]
      simp only [tcBind]
      rw [hal]
      simp only [tcSeq]
      rw [har]
    · simp only [Expr.type_check]
      rw [hl]
      simp only [tcBind]
      rw [hr]
      simp only [tcBind]
      rw [hal]
      simp only [tcSeq]
      rw [har]

/-- Witness for C3: `true && false` type-checks to a `bool`-typed IR
conjunction in the empty environment. -/
theorem spec_c3_witness :
    (Expr.and (.bool true) (.bool false)).type_check EnvironmentStack.new =
      .ok (⟨IrType.bool, .and ⟨IrType.bool, .bool true⟩ ⟨IrType.bool, .bool false⟩⟩,
           EnvironmentStack.new) :=
  ((spec_c3_bool_connectives (.bool true) (.bool false) EnvironmentStack.new
      ⟨IrType.bool, .bool true⟩ ⟨IrType.bool, .bool false⟩
      EnvironmentStack.new EnvironmentStack.new rfl rfl).1.1 ⟨rfl, rfl⟩).1

/-- C4: frontend errors are structured `TypeCheckError` values (the
five-variant inductive defined above), and an error raised while
checking any declaration propagates unchanged to the caller of
`run_type_checking` — it is never swallowed. -/
theorem spec_c4_error_propagation (ds₁ : List Declaration) (d : Declaration)
    (ds₂ : List Declaration) (a : List IrDeclaration) (env₁ : EnvironmentStack)
    (err : TypeCheckError)
    (h₁ : Declaration.type_check_list ds₁ EnvironmentStack.new = .ok (a, env₁))
    (h₂ : d.type_check env₁ = .error err) :
    run_type_checking ⟨ds₁ ++ d :: ds₂⟩ = .error err := by
  have hlist := @declaration_list_append_error ds₁ d ds₂ EnvironmentStack.new a env₁ err h₁ h₂
  have hp : Program.type_check ⟨ds₁ ++ d :: ds₂⟩ EnvironmentStack.new = .error err := by
    rw [Program.type_check]
    rw [tcBind_error]
    exact .inl hlist
  rw [run_type_checking, hp]

/-- Witness for C4: a constant declaration whose initializer mentions
an unbound name makes the whole run fail with that `UnknownVar`. -/
theorem spec_c4_witness :
    run_type_checking ⟨[] ++ Declaration.constant ⟨.base .bool, "c", .var "x"⟩ :: []⟩ =
      .error (.unknownVar "x") :=
  spec_c4_error_propagation [] (.constant ⟨.base .bool, "c", .var "x"⟩) [] []
    EnvironmentStack.new (.unknownVar "x") rfl rfl

/-- C5: a declaration made inside a block statement is invisible once
the block has been type-checked — after a successful
`BlockStatement::type_check`, every name resolves exactly as it did
before the block (so an inner-only name is again unknown, and an outer
binding is restored). -/
theorem spec_c5_block_scope_isolation {b : BlockStatement} {env : EnvironmentStack}
    {r : IrBlockStatement} {env' : EnvironmentStack} (hwf : env.wf)
    (h : b.type_check env = .ok (r, env')) :
    ∀ name, env'.get_var name = env.get_var name := by
  obtain ⟨stmts⟩ := b
  simp only [BlockStatement.type_check] at h
  rw [tcBind_ok] at h
  obtain ⟨irs, env₂, h₁, h⟩ := h
  simp only [Except.ok.injEq, Prod.mk.injEq] at h
  obtain ⟨-, rfl⟩ := h
  have e1 : Evolves env.push_scope env₂ := sod_list_evolves stmts env.push_scope irs env₂ h₁
  have hstack : env₂.pop_scope.stack = env.stack := pop_stack_of_evolves_push e1
  have hext : ∃ extra, env₂.pop_scope.var_tys = env.var_tys ++ extra :=
    (evolves_of_push_pop e1).2.2.1 hwf
  intro name
  exact get_var_eq_aux hwf hext name (by rw [hstack])

/-- Witness for C5: after checking the block `{ bool x; }` in the empty
environment, looking up `x` gives the same result (`none`) as before
the block. -/
theorem spec_c5_witness :
    (⟨[], [(0, IrType.bool)], 1⟩ : EnvironmentStack).get_var "x" =
      EnvironmentStack.new.get_var "x" :=
  @spec_c5_block_scope_isolation
    (.mk [.variableDecl ⟨.base .bool, "x", none⟩])
    EnvironmentStack.new
    (.mk [.variableDecl ⟨IrType.bool, 0, none, false⟩])
    ⟨[], [(0, IrType.bool)], 1⟩
    wf_new (by rfl) "x"

/-- C6: the `actions` property of a table type-checks successfully
exactly when every listed name resolves to a function type whose
result is `void` (yielding the resolved ids in list order, without
touching the environment); an unbound name fails with `UnknownVar` and
a name of any other type fails with `NotAnAction`. -/
theorem spec_c6_table_actions (names : List String) (env : EnvironmentStack) :
    (∀ r, TableProperty.type_check (.actions names) env = .ok r ↔
       ∃ ids, r = (IrTableProperty.actions ids, env) ∧
         List.Forall₂ (fun nm id => ∃ f, env.get_var nm = some (id, IrType.function f) ∧
           f.result = IrType.base .void) names ids) ∧
    (∀ pre nm post, names = pre ++ nm :: post →
       (∀ a ∈ pre, ∃ id f, env.get_var a = some (id, IrType.function f) ∧
          f.result = IrType.base .void) →
       (env.get_var nm = none →
          TableProperty.type_check (.actions names) env = .error (.unknownVar nm)) ∧
       (∀ id ty, env.get_var nm = some (id, ty) →
          (∀ f, ty = IrType.function f → f.result ≠ IrType.base .void) →
          TableProperty.type_check (.actions names) env = .error (.notAnAction ty))) := by
  constructor
  · intro r
    simp only [TableProperty.type_check]
    constructor
    · intro h
      rw [exBind_ok] at h
      obtain ⟨ids, hids, h⟩ := h
      simp only [Except.ok.injEq] at h
      exact ⟨ids, h.symm, resolve_action_list_ok.mp hids⟩
    · rintro ⟨ids, rfl, hfa⟩
      rw [exBind_ok]
      exact ⟨ids, resolve_action_list_ok.mpr hfa, rfl⟩
  · intro pre nm post hnames hpre
    constructor
    · intro hnone
      subst hnames
      simp only [TableProperty.type_check]
      rw [exBind_error]
      exact .inl (resolve_action_list_prefix_error pre nm post hpre
        (resolve_action_unknown hnone))
    · intro id ty hsome hnv
      subst hnames
      simp only [TableProperty.type_check]
      rw [exBind_error]
      exact .inl (resolve_action_list_prefix_error pre nm post hpre
        (resolve_action_notAnAction hsome hnv))

/-- Witness for C6: an unbound action name makes the actions property
fail with `UnknownVar`. -/
theorem spec_c6_witness :
    TableProperty.type_check (.actions ["f"]) EnvironmentStack.new =
      .error (.unknownVar "f") :=
  ((spec_c6_table_actions ["f"] EnvironmentStack.new).2 [] "f" [] rfl
    (by intro a ha; exact absurd ha (List.not_mem_nil a))).1 rfl

/-- C7: type checking is deterministic and pure — `run_type_checking`
is a function of the program alone (it builds its environment stack
from `EnvironmentStack.new` and consults no other state), so two runs
on the same program return identical results: the same IR program and
the same metadata. -/
theorem spec_c7_determinism (p : Program)
    (o₁ o₂ : Except TypeCheckError (IrProgram × ProgramMetadata))
    (h₁ : run_type_checking p = o₁) (h₂ : run_type_checking p = o₂) :
    o₁ = o₂ := by
  rw [← h₁, ← h₂]

/-- Witness for C7 on the empty program. -/
theorem spec_c7_witness :
    (Except.ok (⟨[]⟩, ⟨[]⟩) : Except TypeCheckError (IrProgram × ProgramMetadata)) =
      .ok (⟨[]⟩, ⟨[]⟩) :=
  spec_c7_determinism ⟨[]⟩ (.ok (⟨[]⟩, ⟨[]⟩)) (.ok (⟨[]⟩, ⟨[]⟩)) rfl rfl

/-- C8: declaring a name that is absent from the innermost scope
succeeds — even when an outer scope binds the same name — allocating
the fresh id `next_id`, after which lookup resolves to the new
innermost binding; `insert` fails, and fails with `DuplicateDecl`,
exactly when the innermost scope already binds the name. -/
theorem spec_c8_shadowing (env : EnvironmentStack) (name : String) (ty : IrType) :
    (∀ top rest, env.stack = top :: rest → alookup top.vars name = none →
       ∃ env', env.insert name ty = .ok (env.next_id, env') ∧
         env'.next_id = env.next_id + 1 ∧
         env'.get_var name = some (env.next_id, ty)) ∧
    (∀ e, env.insert name ty = .error e ↔
       e = .duplicateDecl name ∧
       ∃ top rest, env.stack = top :: rest ∧ (alookup top.vars name).isSome) := by
  constructor
  · intro top rest hs habs
    have htop : topEnv env = top := by
      rw [topEnv, hs]
      rfl
    have hins : env.insert name ty = .ok (env.next_id,
        ⟨⟨listInsert (topEnv env).vars name env.next_id⟩ :: env.stack.tail,
         listInsert env.var_tys env.next_id ty, env.next_id + 1⟩) := by
      rw [insert_ok_iff]
      exact ⟨by rw [htop]; exact habs, rfl, rfl⟩
    exact ⟨_, hins, rfl, get_var_insert_self hins⟩
  · intro e
    rw [insert_error_iff]
    constructor
    · rintro ⟨rfl, hsome⟩
      refine ⟨rfl, ?_⟩
      cases hs : env.stack with
      | nil =>
        rw [topEnv, hs] at hsome
        simp only [List.headD_nil] at hsome
        have hz : alookup (⟨[]⟩ : Environment).vars name = none := rfl
        rw [hz] at hsome
        simp at hsome
      | cons top rest =>
        rw [topEnv, hs] at hsome
        simp only [List.headD_cons] at hsome
        exact ⟨top, rest, rfl, hsome⟩
    · rintro ⟨rfl, top, rest, hs, hsome⟩
      refine ⟨rfl, ?_⟩
      rw [topEnv, hs]
      simp only [List.headD_cons]
      exact hsome

/-- Witness for C8: with an outer scope binding `x` to id 0 and an
empty inner scope, inserting `x` succeeds with the fresh id 1 and
lookup then resolves to the inner binding. -/
theorem spec_c8_witness :
    ∃ env', (⟨[⟨[]⟩, ⟨[("x", 0)]⟩], [(0, IrType.bool)], 1⟩ : EnvironmentStack).insert "x"
        IrType.bool = .ok (1, env') ∧
      env'.next_id = 1 + 1 ∧
      env'.get_var "x" = some (1, IrType.bool) :=
  (spec_c8_shadowing ⟨[⟨[]⟩, ⟨[("x", 0)]⟩], [(0, IrType.bool)], 1⟩ "x" IrType.bool).1
    ⟨[]⟩ [⟨[("x", 0)]⟩] rfl rfl

/-- C9: the IR of a constant declaration records `is_const = true`,
yet `Assignment::type_check` accepts an assignment to that constant
whenever the assigned value's type equals the declared type — no
constness check is performed. -/
theorem spec_c9_const_assignment {cd : ConstantDecl} {env : EnvironmentStack}
    {d : IrVariableDecl} {env₁ : EnvironmentStack} {v : Expr} {irv : IrExpr}
    {env₂ : EnvironmentStack} (hwf : env.wf)
    (hc : cd.type_check env = .ok (d, env₁))
    (hv : v.type_check env₁ = .ok (irv, env₂))
    (hty : irv.ty = d.ty) :
    d.is_const = true ∧
    Assignment.type_check ⟨cd.name, v⟩ env₁ = .ok (⟨d.id, irv⟩, env₂) := by
  rw [ConstantDecl.type_check] at hc
  rw [tcBind_ok] at hc
  obtain ⟨ty, enva, hta, hc⟩ := hc
  rw [tcBind_ok] at hc
  obtain ⟨value, envb, hvb, hc⟩ := hc
  rw [tcBind_ok] at hc
  obtain ⟨id, envc, hins, hc⟩ := hc
  rw [tcSeq_ok] at hc
  obtain ⟨-, hc⟩ := hc
  simp only [Except.ok.injEq, Prod.mk.injEq] at hc
  obtain ⟨hd, rfl⟩ := hc
  have e1 := typeRef_tc_env hta
  subst e1
  have e2 := expr_tc_env _ _ _ _ hvb
  subst e2
  subst hd
  refine ⟨rfl, ?_⟩
  rw [Assignment.type_check]
  have hget : envc.get_var cd.name = some (id, ty) := get_var_insert_self hins
  have hge : envc.get_var_or_err cd.name = .ok (id, ty) := get_var_or_err_ok.mpr hget
  dsimp only
  rw [hge]
  simp only [exBind]
  rw [hv]
  simp only [tcBind]
  have hat : assert_ty irv.ty ty = .ok () := assert_ty_ok.mpr hty
  rw [hat]
  rfl

/-- Witness for C9: after `const bool c = true`, the assignment
`c = false` is accepted although the binding is `is_const`. -/
theorem spec_c9_witness :
    (⟨IrType.bool, 0, some ⟨IrType.bool, .bool true⟩, true⟩ : IrVariableDecl).is_const =
      true ∧
    Assignment.type_check ⟨"c", .bool false⟩ ⟨[⟨[("c", 0)]⟩], [(0, IrType.bool)], 1⟩ =
      .ok (⟨0, ⟨IrType.bool, .bool false⟩⟩, ⟨[⟨[("c", 0)]⟩], [(0, IrType.bool)], 1⟩) :=
  @spec_c9_const_assignment
    ⟨.base .bool, "c", .bool true⟩ EnvironmentStack.new
    ⟨IrType.bool, 0, some ⟨IrType.bool, .bool true⟩, true⟩
    ⟨[⟨[("c", 0)]⟩], [(0, IrType.bool)], 1⟩
    (.bool false) ⟨IrType.bool, .bool false⟩
    ⟨[⟨[("c", 0)]⟩], [(0, IrType.bool)], 1⟩
    wf_new (by rfl) (by rfl) rfl

/-- C10: an action's own name is inserted only after its body is
checked in a pushed-and-popped scope, so a call to the action from its
own body fails with `UnknownVar` (no recursion); on success the action
name is visible afterwards with its function type, while every other
name — the action's parameters included — resolves exactly as before
the declaration. -/
theorem spec_c10_action_scoping :
    (∀ (name : String) (rest : List StatementOrDecl) (env : EnvironmentStack),
       env.get_var name = none →
       ActionDecl.type_check ⟨name, [],
         .mk (.statement (.functionCall (.mk name [])) :: rest)⟩ env =
         .error (.unknownVar name)) ∧
    (∀ (a : ActionDecl) (env : EnvironmentStack) (r : IrActionDecl)
       (env' : EnvironmentStack), env.wf → a.type_check env = .ok (r, env') →
       env'.get_var a.name = some (r.id, IrType.function r.ty) ∧
       ∀ nm, nm ≠ a.name → env'.get_var nm = env.get_var nm) := by
  constructor
  · intro name rest env hnone
    have h2 : env.push_scope.push_scope.get_var name = none := by
      rw [get_var_push, get_var_push, hnone]
    rw [ActionDecl.type_check]
    dsimp only
    rw [tcBind_error]
    refine .inr ⟨[], env.push_scope, rfl, ?_⟩
    rw [tcBind_error]
    left
    simp only [BlockStatement.type_check]
    rw [tcBind_error]
    left
    simp only [StatementOrDecl.type_check_list]
    rw [tcBind_error]
    left
    simp only [StatementOrDecl.type_check]
    rw [tcBind_error]
    left
    simp only [Statement.type_check]
    rw [tcBind_error]
    left
    simp only [FunctionCall.type_check]
    rw [exBind_error]
    left
    rw [get_var_or_err_error]
    exact ⟨h2, rfl⟩
  · intro a env r env' hwf h
    obtain ⟨params, env₁, body, env₂, id, h₁, h₂, h₃, hir⟩ := actionDecl_decompose h
    have e1 : Evolves env.push_scope env₂ :=
      evolves_trans (param_list_evolves _ _ _ _ h₁) (blockStatement_evolves _ _ _ _ h₂)
    have hwfpop : env₂.pop_scope.wf := wf_pop (e1.1 (wf_push hwf))
    have hstack : env₂.pop_scope.stack = env.stack := pop_stack_of_evolves_push e1
    have hext : ∃ extra, env₂.pop_scope.var_tys = env.var_tys ++ extra :=
      (evolves_of_push_pop e1).2.2.1 hwf
    subst hir
    constructor
    · exact get_var_insert_self h₃
    · intro nm hne
      rw [get_var_insert_ne hwfpop h₃ hne]
      exact get_var_eq_aux hwf hext nm (by rw [hstack])

/-- Witness for C10: an action `f` whose body calls `f` fails with
`UnknownVar "f"` in the empty environment. -/
theorem spec_c10_witness :
    ActionDecl.type_check ⟨"f", [],
      .mk [.statement (.functionCall (.mk "f" []))]⟩ EnvironmentStack.new =
      .error (.unknownVar "f") :=
  spec_c10_action_scoping.1 "f" [] EnvironmentStack.new rfl
